import Mathlib

/-! jeayeson: the document object model (`map.hpp`, `array.hpp`)

A shallow embedding of the two containers of jeayeson, the string-keyed `map`
and the index-addressed `array`, together with the part of the `Value` variant
they rely on.

* `map::values_` is the `JEAYESON_MAP_T<key_t, Value>` of the first branch of
  the configuration block of `map.hpp` (`std::map`): a key-ordered association
  list with one entry per key.  The operations are written so that they read and
  write the entry of a key whatever the shape of the list; the key order only
  decides where a fresh entry is placed.  `internal_map_t.ordered` is the
  invariant of `std::map`; the empty map has it and every operation keeps it
  (`ordered_preserved`), and what is shown about `operator ==`, `get_keys` and
  `get_values` is shown for storage in key order.
* `array::values_` is a `std::vector<Value>`: a list.  An `index_t` is a natural
  number; what is shown for every natural index holds for those below `2 ^ 32`.
* Member functions that write through the `mutable` storage (`values_[key]`)
  are state passing: they return their result together with the container
  afterwards.  The accessors with a fallback have both forms, the result alone
  and the result with the container afterwards (`_state`).
* The parser is an external collaborator: `reset` takes it as a parameter.
* Calls that can fail return `Except failure _`.
-/

namespace jeayeson

/-- The failure kinds of the error taxonomy, and `undefined_behaviour` for an
unchecked `std::vector` element access outside `[0, size)`. -/
inductive failure
  | TypeMismatch
  | IndexOutOfRange
  | KeyNotFound
  | PathNotFound
  | ParseError
  | ConstructionError
  | undefined_behaviour
  deriving DecidableEq, Repr

/-- Modelled from the spec: the `Value` variant (value.hpp is not among the
sources), a closed sum over null, boolean, integer, floating point, string,
array and map.  The payload of an array is the `values_` of an `array`, the
payload of a map the `values_` of a `map`.  A floating-point payload is kept as
the rational number it denotes. -/
inductive Value
  | null
  | boolean (b : Bool)
  | integer (i : Int)
  | floating (f : Rat)
  | string (s : String)
  | array (values_ : List Value)
  | map (values_ : List (String × Value))

/-- The type `T` a typed accessor is instantiated with (`get<T>`, `as<T>`);
`Value` is the default template argument. -/
inductive T
  | Value
  | null_t
  | boolean
  | integer
  | floating
  | string
  | array_t
  | map_t
  deriving DecidableEq, Repr

/-- Modelled from the spec: `Value::as<T>()` (value.hpp is not among the
sources).  It yields the payload interpreted as `T`, a converted copy for the
integer/float coercions, and fails with `TypeMismatch` when the active tag does
not match `T` and no numeric coercion exists.  `as<Value>` is the value
itself. -/
def Value.as : T → Value → Except failure Value
  | T.Value, v => .ok v
  | T.null_t, .null => .ok .null
  | T.boolean, .boolean b => .ok (.boolean b)
  | T.integer, .integer i => .ok (.integer i)
  | T.integer, .floating f => .ok (.integer (Int.tdiv f.num f.den))
  | T.floating, .floating f => .ok (.floating f)
  | T.floating, .integer i => .ok (.floating i)
  | T.string, .string s => .ok (.string s)
  | T.array_t, .array xs => .ok (.array xs)
  | T.map_t, .map kvs => .ok (.map kvs)
  | _, _ => .error failure.TypeMismatch

/-- Modelled from the spec: `static_cast<detail::normalize<T>>(fallback)`
(traits.hpp is not among the sources) brings a fallback to the normalised
representation of `T`.  The payloads of `Value` are the normalised
representations already, so the cast keeps the value. -/
def normalize (fallback : Value) : Value := fallback

/-- The storage of a map, `JEAYESON_MAP_T<key_t, Value>`. -/
abbrev internal_map_t := List (String × Value)

/-- The storage of an array, `std::vector<Value>`. -/
abbrev internal_array_t := List Value

namespace internal_map_t

/-- `values_.find(key)`: the entry stored under `key`, `none` for `end()`. -/
def find (key : String) : internal_map_t → Option Value
  | [] => none
  | (k, v) :: rest => if k = key then some v else find key rest

/-- Where `std::map` puts the entry of a key it does not hold yet: before the
first entry with a greater key.  Keys are compared as `std::less<std::string>`
does, character by character. -/
def place (key : String) (value : Value) : internal_map_t → internal_map_t
  | [] => [(key, value)]
  | (k, v) :: rest =>
    if key.data < k.data then (key, value) :: (k, v) :: rest
    else (k, v) :: place key value rest

/-- `values_.insert(entry)`: adds the entry unless the key is already held. -/
def insert (entry : String × Value) (values_ : internal_map_t) : internal_map_t :=
  match find entry.1 values_ with
  | some _ => values_
  | none => place entry.1 entry.2 values_

/-- `values_.insert(first, last)`: inserts the entries of the range in turn. -/
def insert_range (range : internal_map_t) (values_ : internal_map_t) : internal_map_t :=
  range.foldl (fun acc entry => insert entry acc) values_

/-- `values_[key]`: the entry under `key`, after a default-constructed (null)
`Value` has been inserted when the key was not held; the storage afterwards. -/
def subscript (key : String) (values_ : internal_map_t) : Value × internal_map_t :=
  match find key values_ with
  | some v => (v, values_)
  | none => (Value.null, place key Value.null values_)

/-- Writing `value` through the reference to the entry under `key`. -/
def assign (key : String) (value : Value) : internal_map_t → internal_map_t
  | [] => []
  | (k, v) :: rest =>
    if k = key then (k, value) :: rest else (k, v) :: assign key value rest

/-- `values_.erase(key)`: removes the entry under `key`. -/
def erase (key : String) (values_ : internal_map_t) : internal_map_t :=
  values_.filter (fun entry => !(entry.1 == key))

end internal_map_t

/-- `boost::algorithm::split` with `is_any_of(delim)` on the characters of the
source: every delimiter character ends a token, adjacent delimiters are not
compressed. -/
def split (delim : List Char) : List Char → List (List Char)
  | [] => [[]]
  | c :: cs =>
    if c ∈ delim then [] :: split delim cs
    else
      match split delim cs with
      | [] => [[c]]
      | token :: tokens => (c :: token) :: tokens

/-- `tokenize(source, delim)`. -/
def tokenize (source delim : String) : List String :=
  (split delim.data source.data).map String.mk

/-- Modelled from the spec: `Value::as<map_t>()` with its result typed (value.hpp
is not among the sources): the stored map of a map value, `TypeMismatch` for
every other tag. -/
def Value.as_map_t : Value → Except failure internal_map_t
  | .map values_ => .ok values_
  | _ => .error failure.TypeMismatch

/-- The class `map` of map.hpp: its only member is `values_`. -/
structure map where
  values_ : internal_map_t

/-- The class `array` of array.hpp: its only member is `values_`. -/
structure array where
  values_ : internal_array_t

namespace map

/-- `map::find(key)`. -/
def find (m : map) (key : String) : Option Value :=
  internal_map_t.find key m.values_

/-- `map::size()`. -/
def size (m : map) : Nat := m.values_.length

/-- `map::get<T>(key)`, `values_[key].template as<T>()`: the result and the map
afterwards. -/
def get (m : map) (t : T) (key : String) : Except failure Value × map :=
  ((internal_map_t.subscript key m.values_).1.as t,
    ⟨(internal_map_t.subscript key m.values_).2⟩)

/-- `map::get<T>(key, fallback)`. -/
def get_fallback (m : map) (t : T) (key : String) (fallback : Value) :
    Except failure Value :=
  match internal_map_t.find key m.values_ with
  | some v => v.as t
  | none => .ok (normalize fallback)

/-- `map::operator[](key)`, `return get(key)`. -/
def subscript (m : map) (key : String) : Except failure Value × map :=
  m.get T.Value key

/-- The body of `get_for_path(path, fallback)` from loop index `i` on, with `n`
iterations of the loop left, followed by the lookup of `tokens[path_size]`. -/
def get_for_path_fallback_from (t : T) (tokens : List String) (path_size : Nat)
    (fallback : Value) : Nat → Nat → internal_map_t → Except failure Value
  | 0, _, sub_map =>
    match tokens[path_size]? with
    | none => .error failure.undefined_behaviour
    | some token =>
      match internal_map_t.find token sub_map with
      | none => .ok fallback
      | some v => v.as t
  | n + 1, i, sub_map =>
    match tokens[i]? with
    | none => .error failure.undefined_behaviour
    | some token =>
      match internal_map_t.find token sub_map with
      | none => .ok fallback
      | some v =>
        match v.as_map_t with
        | .error e => .error e
        | .ok next => get_for_path_fallback_from t tokens path_size fallback n (i + 1) next

/-- `map::get_for_path<T>(path, fallback)`. -/
def get_for_path_fallback (m : map) (t : T) (path : String) (fallback : Value) :
    Except failure Value :=
  let tokens := tokenize path "."
  let path_size := tokens.length - 1
  get_for_path_fallback_from t tokens path_size fallback path_size 0 m.values_

/-- `map::get_keys()`. -/
def get_keys (m : map) : List String :=
  m.values_.map Prod.fst

/-- `map::set(key, value)`, `values_[key] = value`. -/
def set (m : map) (key : String) (value : Value) : map :=
  ⟨internal_map_t.assign key value (internal_map_t.subscript key m.values_).2⟩

/-- `map::erase(key)`. -/
def erase (m : map) (key : String) : map :=
  ⟨internal_map_t.erase key m.values_⟩

/-- `map::merge(m)`, `values_.insert(m.values_.begin(), m.values_.end())`. -/
def merge (m1 m : map) : map :=
  ⟨internal_map_t.insert_range m.values_ m1.values_⟩

end map

namespace array

/-- `array::size()`. -/
def size (a : array) : Nat := a.values_.length

/-- `array::get<T>(index)`, `values_[index].template as<T>()`; the element access
is unchecked. -/
def get (a : array) (t : T) (index : Nat) : Except failure Value :=
  match a.values_[index]? with
  | none => .error failure.undefined_behaviour
  | some v => v.as t

/-- `array::get<T>(index, fallback)`. -/
def get_fallback (a : array) (t : T) (index : Nat) (fallback : Value) :
    Except failure Value :=
  if index ≥ a.values_.length then .ok (normalize fallback)
  else
    match a.values_[index]? with
    | none => .error failure.undefined_behaviour
    | some v => v.as t

/-- `array::set(index, t)`, `values_[index] = t`; the element access is
unchecked. -/
def set (a : array) (index : Nat) (value : Value) : Except failure array :=
  if index < a.values_.length then .ok ⟨a.values_.set index value⟩
  else .error failure.undefined_behaviour

end array

/-- The document of the end-to-end example:
`str` is "hi", `arr` is `[1, 2, 3]`, `person` has `name` "Bob" and an `inventory`
holding 5 `coins`. -/
def example_document : map :=
  ⟨[("arr", .array [.integer 1, .integer 2, .integer 3]),
    ("person", .map [("inventory", .map [("coins", .integer 5)]),
                     ("name", .string "Bob")]),
    ("str", .string "hi")]⟩

/-! ## What the specification says about a dotted path

The three ways a walk along the tokens of a path can end, in the words of the
specification: every token is present and every intermediate value is a map;
some token is absent; some intermediate value is not a map. -/

/-- Every token along the path is present, every intermediate token resolves
to a map-typed value, and `v` is the value stored at the final token. -/
inductive path_resolves : internal_map_t → List String → Value → Prop
  | final (values_ : internal_map_t) (token : String) (v : Value) :
      internal_map_t.find token values_ = some v →
      path_resolves values_ [token] v
  | step (values_ sub : internal_map_t) (token : String) (rest : List String) (v : Value) :
      internal_map_t.find token values_ = some (Value.map sub) →
      path_resolves sub rest v →
      path_resolves values_ (token :: rest) v

/-- Some token of the path, intermediate or final, is absent, and every
intermediate token before it resolves to a map-typed value. -/
inductive path_breaks : internal_map_t → List String → Prop
  | absent (values_ : internal_map_t) (token : String) (rest : List String) :
      internal_map_t.find token values_ = none →
      path_breaks values_ (token :: rest)
  | step (values_ sub : internal_map_t) (token : String) (rest : List String) :
      internal_map_t.find token values_ = some (Value.map sub) →
      path_breaks sub rest →
      path_breaks values_ (token :: rest)

/-- Some intermediate token of the path is present with a value that is not a
map, and every intermediate token before it resolves to a map-typed value. -/
inductive path_meets_non_map : internal_map_t → List String → Prop
  | here (values_ : internal_map_t) (token : String) (rest : List String) (v : Value) :
      internal_map_t.find token values_ = some v →
      (∀ sub, v ≠ Value.map sub) →
      rest ≠ [] →
      path_meets_non_map values_ (token :: rest)
  | step (values_ sub : internal_map_t) (token : String) (rest : List String) :
      internal_map_t.find token values_ = some (Value.map sub) →
      path_meets_non_map sub rest →
      path_meets_non_map values_ (token :: rest)

/-! ## Tags, construction from a value, reset, erase -/

/-- Modelled from the spec: the active tag of a `Value`, as `get_type()` exposes
it (value.hpp is not among the sources); `type_array` and `type_map` are the
constants the containers compare against. -/
inductive type_tag
  | type_null
  | type_boolean
  | type_integer
  | type_floating
  | type_string
  | type_array
  | type_map
  deriving DecidableEq, Repr

/-- Modelled from the spec: `Value::get_type()` (value.hpp is not among the
sources), the active tag. -/
def Value.get_type : Value → type_tag
  | .null => type_tag.type_null
  | .boolean _ => type_tag.type_boolean
  | .integer _ => type_tag.type_integer
  | .floating _ => type_tag.type_floating
  | .string _ => type_tag.type_string
  | .array _ => type_tag.type_array
  | .map _ => type_tag.type_map

/-- The words of the specification, "the active tag matches `T`": the tag is the
tag of `T`; every tag matches `T = Value`. -/
def T.tag_matches : T → type_tag → Bool
  | T.Value, _ => true
  | T.null_t, .type_null => true
  | T.boolean, .type_boolean => true
  | T.integer, .type_integer => true
  | T.floating, .type_floating => true
  | T.string, .type_string => true
  | T.array_t, .type_array => true
  | T.map_t, .type_map => true
  | _, _ => false

/-- The words of the specification, "a numeric coercion between the active tag
and `T` exists": integer to float and float to integer. -/
def T.numerically_coercible : T → type_tag → Bool
  | T.integer, .type_floating => true
  | T.floating, .type_integer => true
  | _, _ => false

/-- Modelled from the spec: `Value::as<array_t>()` with its result typed
(value.hpp is not among the sources): the stored array of an array value,
`TypeMismatch` for every other tag. -/
def Value.as_array_t : Value → Except failure internal_array_t
  | .array values_ => .ok values_
  | _ => .error failure.TypeMismatch

/-- The constructor `array::array(value_type const &val)`; the
`std::runtime_error` it throws is the `ConstructionError` of the taxonomy. -/
def array.from_value (val : Value) : Except failure array :=
  if val.get_type = type_tag.type_array then
    match val.as_array_t with
    | .ok values_ => .ok ⟨values_⟩
    | .error e => .error e
  else .error failure.ConstructionError

/-- The constructor `map::map(value_type const &val)`; the `std::runtime_error`
it throws is the `ConstructionError` of the taxonomy. -/
def map.from_value (val : Value) : Except failure map :=
  if val.get_type = type_tag.type_map then
    match val.as_map_t with
    | .ok values_ => .ok ⟨values_⟩
    | .error e => .error e
  else .error failure.ConstructionError

/-- `array::reset(json)`, `*this = Parser::template parse<array_t>(json)`: the
outcome of the call and the array afterwards.  The parser is the external
collaborator, taken as the parameter `parse`; the assignment runs after the
parser has returned a document. -/
def array.reset (parse : String → Except failure array) (a : array) (json : String) :
    Except failure Unit × array :=
  match parse json with
  | .ok document => (.ok (), document)
  | .error e => (.error e, a)

/-- `map::reset(json)`, `*this = Parser::template parse<map_t>(json)`: the
outcome of the call and the map afterwards, with the parser as the parameter
`parse`. -/
def map.reset (parse : String → Except failure map) (m : map) (json : String) :
    Except failure Unit × map :=
  match parse json with
  | .ok document => (.ok (), document)
  | .error e => (.error e, m)

/-- `array::erase(index)`, `values_.erase(values_.begin() + index)`; erasing at
a position that holds no element is undefined. -/
def array.erase (a : array) (index : Nat) : Except failure array :=
  if index < a.values_.length then .ok ⟨a.values_.eraseIdx index⟩
  else .error failure.undefined_behaviour

/-- `array::erase(index, amount)`,
`values_.erase(values_.begin() + index, values_.begin() + index + amount)`; a
range that reaches beyond `end()` is undefined. -/
def array.erase_amount (a : array) (index amount : Nat) : Except failure array :=
  if index + amount ≤ a.values_.length then
    .ok ⟨a.values_.take index ++ a.values_.drop (index + amount)⟩
  else .error failure.undefined_behaviour

/-- Calling `erase(index)` a number of times in a row. -/
def array.erase_times (index : Nat) : Nat → array → Except failure array
  | 0, a => .ok a
  | n + 1, a =>
    match a.erase index with
    | .ok a1 => erase_times index n a1
    | .error e => .error e

/-- A parser for the examples: it knows the text of the empty array and the text
of the empty map and rejects every other text. -/
def example_parse_array (json : String) : Except failure array :=
  if json = "[]" then .ok ⟨[]⟩ else .error failure.ParseError

/-- The map counterpart of `example_parse_array`. -/
def example_parse_map (json : String) : Except failure map :=
  if json = "\x7b\x7d" then .ok ⟨[]⟩ else .error failure.ParseError

/-! ## Dotted paths and the storage they walk through

`sub_map` is a pointer into the tree: a sub-map reached through an entry is the
payload of that entry, so what the rest of a walk does to the sub-map is written
to the entry. -/

namespace map

/-- The body of `get_for_path(path)` (no fallback) from loop index `i` on, with
`n` iterations of `sub_map = &sub_map->get<map_t>(tokens[i])` left, followed by
`sub_map->get<T>(tokens[path_size])`: the result and the map `sub_map` points at
afterwards. -/
def get_for_path_from (t : T) (tokens : List String) (path_size : Nat) :
    Nat → Nat → internal_map_t → Except failure Value × internal_map_t
  | 0, _, sub_map =>
    match tokens[path_size]? with
    | none => (.error failure.undefined_behaviour, sub_map)
    | some token =>
      ((internal_map_t.subscript token sub_map).1.as t,
        (internal_map_t.subscript token sub_map).2)
  | n + 1, i, sub_map =>
    match tokens[i]? with
    | none => (.error failure.undefined_behaviour, sub_map)
    | some token =>
      match (internal_map_t.subscript token sub_map).1.as_map_t with
      | .error e => (.error e, (internal_map_t.subscript token sub_map).2)
      | .ok next =>
        ((get_for_path_from t tokens path_size n (i + 1) next).1,
          internal_map_t.assign token
            (Value.map (get_for_path_from t tokens path_size n (i + 1) next).2)
            (internal_map_t.subscript token sub_map).2)

/-- `map::get_for_path<T>(path)`: the result and the map afterwards. -/
def get_for_path (m : map) (t : T) (path : String) : Except failure Value × map :=
  ((get_for_path_from t (tokenize path ".") ((tokenize path ".").length - 1)
      ((tokenize path ".").length - 1) 0 m.values_).1,
    ⟨(get_for_path_from t (tokenize path ".") ((tokenize path ".").length - 1)
      ((tokenize path ".").length - 1) 0 m.values_).2⟩)

/-- `map::get<T>(key, fallback)` with the map afterwards: the body reaches
`values_` through `find` only, so the storage is handed back as it came. -/
def get_fallback_state (m : map) (t : T) (key : String) (fallback : Value) :
    Except failure Value × map :=
  match internal_map_t.find key m.values_ with
  | some v => (v.as t, m)
  | none => (.ok (normalize fallback), m)

/-- The body of `get_for_path(path, fallback)` with the map `sub_map` points at
afterwards, in the way of `get_for_path_from`. -/
def get_for_path_fallback_state_from (t : T) (tokens : List String) (path_size : Nat)
    (fallback : Value) : Nat → Nat → internal_map_t → Except failure Value × internal_map_t
  | 0, _, sub_map =>
    match tokens[path_size]? with
    | none => (.error failure.undefined_behaviour, sub_map)
    | some token =>
      match internal_map_t.find token sub_map with
      | none => (.ok fallback, sub_map)
      | some v => (v.as t, sub_map)
  | n + 1, i, sub_map =>
    match tokens[i]? with
    | none => (.error failure.undefined_behaviour, sub_map)
    | some token =>
      match internal_map_t.find token sub_map with
      | none => (.ok fallback, sub_map)
      | some v =>
        match v.as_map_t with
        | .error e => (.error e, sub_map)
        | .ok next =>
          ((get_for_path_fallback_state_from t tokens path_size fallback n (i + 1) next).1,
            internal_map_t.assign token
              (Value.map
                (get_for_path_fallback_state_from t tokens path_size fallback n (i + 1) next).2)
              sub_map)

/-- `map::get_for_path<T>(path, fallback)` with the map afterwards. -/
def get_for_path_fallback_state (m : map) (t : T) (path : String) (fallback : Value) :
    Except failure Value × map :=
  ((get_for_path_fallback_state_from t (tokenize path ".") ((tokenize path ".").length - 1)
      fallback ((tokenize path ".").length - 1) 0 m.values_).1,
    ⟨(get_for_path_fallback_state_from t (tokenize path ".") ((tokenize path ".").length - 1)
      fallback ((tokenize path ".").length - 1) 0 m.values_).2⟩)

end map

/-! ## Equality -/

mutual

/-- Modelled from the spec: `operator ==` of `Value` (value.hpp is not among the
sources): two values are equal when they have the same active tag and equal
payloads, element by element for arrays and entry by entry for maps. -/
def Value.beq : Value → Value → Bool
  | .null, .null => true
  | .boolean a, .boolean b => a == b
  | .integer a, .integer b => a == b
  | .floating a, .floating b => a == b
  | .string a, .string b => a == b
  | .array xs, .array ys => Value.beq_values xs ys
  | .map xs, .map ys => Value.beq_entries xs ys
  | _, _ => false

/-- `operator ==` of `std::vector<Value>`: same size and equal elements,
position by position. -/
def Value.beq_values : List Value → List Value → Bool
  | [], [] => true
  | x :: xs, y :: ys => Value.beq x y && Value.beq_values xs ys
  | _, _ => false

/-- `operator ==` of `std::map<key_t, Value>`: same size and equal entries (key
and value), position by position in key order. -/
def Value.beq_entries : List (String × Value) → List (String × Value) → Bool
  | [], [] => true
  | (k, x) :: xs, (l, y) :: ys => (k == l) && Value.beq x y && Value.beq_entries xs ys
  | _, _ => false

end

/-- `operator ==` of maps, `lhs.values_ == rhs.values_`. -/
def map.operator_eq (lhs rhs : map) : Bool :=
  Value.beq_entries lhs.values_ rhs.values_

/-- `operator !=` of maps, `!(lhs == rhs)`. -/
def map.operator_ne (lhs rhs : map) : Bool :=
  !(map.operator_eq lhs rhs)

/-- The invariant of `std::map`: the entries are in strictly ascending key
order, so every key has one entry. -/
def internal_map_t.ordered (values_ : internal_map_t) : Prop :=
  List.Pairwise (fun a b => a.1.data < b.1.data) values_

/-- `array::add(t)`, `values_.push_back(Value{ t })`. -/
def array.add (a : array) (value : Value) : array :=
  ⟨a.values_ ++ [value]⟩

/-- `map::get_values()`: the values are added to a fresh array in the order of
the entries. -/
def map.get_values (m : map) : array :=
  m.values_.foldl (fun arr it => arr.add it.2) ⟨[]⟩

/-! ## The storage operations, seen through `find` -/

namespace internal_map_t

theorem find_nil (key : String) : find key [] = none := rfl

theorem find_cons (key k : String) (v : Value) (rest : internal_map_t) :
    find key ((k, v) :: rest) = if k = key then some v else find key rest := rfl

/-- A key is among the keys of the storage exactly when `find` does not return
`end()`. -/
theorem mem_keys_iff (key : String) (values_ : internal_map_t) :
    key ∈ values_.map Prod.fst ↔ find key values_ ≠ none := by
  induction values_ with
  | nil => simp [find]
  | cons entry rest ih =>
    obtain ⟨k, v⟩ := entry
    by_cases hk : k = key
    · simp [find, hk]
    · have hk' : ¬ key = k := fun h => hk h.symm
      simp [find, hk, hk', ih]

theorem find_place_other (key k : String) (value : Value) (values_ : internal_map_t)
    (hk : k ≠ key) : find k (place key value values_) = find k values_ := by
  have hk' : ¬ key = k := fun h => hk h.symm
  induction values_ with
  | nil => simp [place, find, hk']
  | cons entry rest ih =>
    obtain ⟨k0, v0⟩ := entry
    by_cases hlt : key.data < k0.data
    · simp [place, hlt, find, hk']
    · simp [place, hlt, find, ih]

theorem find_place_self (key : String) (value : Value) (values_ : internal_map_t)
    (h : find key values_ = none) : find key (place key value values_) = some value := by
  induction values_ with
  | nil => simp [place, find]
  | cons entry rest ih =>
    obtain ⟨k0, v0⟩ := entry
    by_cases hk : k0 = key
    · simp [find, hk] at h
    · simp only [find, hk, if_false] at h
      by_cases hlt : key.data < k0.data
      · simp [place, hlt, find]
      · simp [place, hlt, find, hk, ih h]

theorem length_place (key : String) (value : Value) (values_ : internal_map_t) :
    (place key value values_).length = values_.length + 1 := by
  induction values_ with
  | nil => simp [place]
  | cons entry rest ih =>
    obtain ⟨k0, v0⟩ := entry
    by_cases hlt : key.data < k0.data
    · simp [place, hlt]
    · simp [place, hlt, ih]

/-- A fresh entry is put between two parts of the storage, which stay as they
were. -/
theorem place_eq_append (key : String) (value : Value) (values_ : internal_map_t) :
    ∃ front back, values_ = front ++ back ∧
      place key value values_ = front ++ (key, value) :: back := by
  induction values_ with
  | nil => exact ⟨[], [], rfl, rfl⟩
  | cons entry rest ih =>
    obtain ⟨k0, v0⟩ := entry
    by_cases hlt : key.data < k0.data
    · exact ⟨[], (k0, v0) :: rest, rfl, by simp [place, hlt]⟩
    · obtain ⟨front, back, h1, h2⟩ := ih
      exact ⟨(k0, v0) :: front, back, by simp [h1], by simp [place, hlt, h2]⟩

theorem find_insert (key : String) (entry : String × Value) (values_ : internal_map_t) :
    find key (insert entry values_) =
      match find key values_ with
      | some v => some v
      | none => if entry.1 = key then some entry.2 else none := by
  unfold insert
  cases h : find entry.1 values_ with
  | some w =>
    cases hk : find key values_ with
    | some v => simp
    | none =>
      have hne : ¬ entry.1 = key := by
        intro he
        rw [he] at h
        rw [h] at hk
        cases hk
      simp [hk, hne]
  | none =>
    by_cases he : entry.1 = key
    · have h2 : find key values_ = none := by rw [← he]; exact h
      have h3 := find_place_self entry.1 entry.2 values_ h
      rw [he] at h3
      simp [h2, he, h3]
    · have h3 := find_place_other entry.1 key entry.2 values_ (fun hk => he hk.symm)
      simp only [h3]
      cases find key values_ <;> simp [he]

theorem find_insert_range (key : String) (range values_ : internal_map_t) :
    find key (insert_range range values_) =
      match find key values_ with
      | some v => some v
      | none => find key range := by
  induction range generalizing values_ with
  | nil => cases h : find key values_ <;> simp [insert_range, find, h]
  | cons entry rest ih =>
    have hstep : insert_range (entry :: rest) values_ = insert_range rest (insert entry values_) := rfl
    obtain ⟨k0, v0⟩ := entry
    rw [hstep, ih, find_insert]
    cases h : find key values_ with
    | some v => simp
    | none =>
      by_cases hk : k0 = key
      · simp [hk, find]
      · simp [hk, find]

theorem find_assign (key k : String) (value : Value) (values_ : internal_map_t) :
    find k (assign key value values_) =
      if k = key then (find key values_).map (fun _ => value) else find k values_ := by
  induction values_ with
  | nil => simp [assign, find]
  | cons entry rest ih =>
    obtain ⟨k0, v0⟩ := entry
    by_cases h0 : k0 = key
    · by_cases hk : k = key
      · simp [assign, find, h0, hk]
      · have hk' : ¬ key = k := fun h => hk h.symm
        simp [assign, find, h0, hk, hk']
    · by_cases hk : k = key
      · subst hk
        simpa [assign, find, h0] using ih
      · by_cases h1 : k0 = k
        · simp [assign, find, h0, hk, h1]
        · simp [assign, find, h0, hk, h1, ih]

theorem find_erase (key k : String) (values_ : internal_map_t) :
    find k (erase key values_) = if k = key then none else find k values_ := by
  unfold erase
  induction values_ with
  | nil => simp [find]
  | cons entry rest ih =>
    obtain ⟨k0, v0⟩ := entry
    by_cases h0 : k0 = key
    · subst h0
      by_cases hk : k = k0
      · simpa [List.filter_cons, hk] using ih
      · have hk' : ¬ k0 = k := fun h => hk h.symm
        simpa [List.filter_cons, hk, hk', find] using ih
    · by_cases hk : k = key
      · subst hk
        simpa [List.filter_cons, h0, find] using ih
      · have ih' : find k (List.filter (fun entry => !(entry.1 == key)) rest) = find k rest := by
          simpa [hk] using ih
        simp [List.filter_cons, h0, hk, find, ih']

theorem find_subscript_self (key : String) (values_ : internal_map_t) :
    find key (subscript key values_).2 = some (subscript key values_).1 := by
  unfold subscript
  cases h : find key values_ with
  | some v => simp [h]
  | none => simp [find_place_self key Value.null values_ h]

theorem find_subscript_other (key k : String) (values_ : internal_map_t) (hk : k ≠ key) :
    find k (subscript key values_).2 = find k values_ := by
  unfold subscript
  cases h : find key values_ with
  | some v => simp
  | none => simp [find_place_other key k Value.null values_ hk]

end internal_map_t

/-! ## Merge -/

/-- C1, as stated, fails: merging the map holding 2 under "a" into the map
holding 1 under "a" leaves 1 under "a"; the value of the incoming map does not
replace it. -/
theorem merge_collision_keeps_receiver :
    (map.mk [("a", .integer 2)]).find "a" = some (.integer 2) ∧
    ((map.mk [("a", .integer 1)]).merge (map.mk [("a", .integer 2)])).find "a"
      = some (.integer 1) ∧
    ((map.mk [("a", .integer 1)]).merge (map.mk [("a", .integer 2)])).find "a"
      ≠ (map.mk [("a", .integer 2)]).find "a" := by
  refine ⟨rfl, rfl, ?_⟩
  intro h
  have h2 : some (Value.integer 1) = some (Value.integer 2) := h
  simp at h2

/-- C1, amended: for every key `k` of the incoming map, after `m1.merge(m2)` the
receiver holds at `k` the value it held before when `k` was one of its keys, and
the value `m2` holds at `k` otherwise. -/
theorem merge_find_incoming_key (m1 m2 : map) (k : String) (v : Value)
    (h : m2.find k = some v) :
    (m1.merge m2).find k = some ((m1.find k).getD v) := by
  have h' : internal_map_t.find k m2.values_ = some v := h
  show internal_map_t.find k (internal_map_t.insert_range m2.values_ m1.values_) = _
  rw [internal_map_t.find_insert_range]
  show _ = some ((internal_map_t.find k m1.values_).getD v)
  cases internal_map_t.find k m1.values_ with
  | some w => simp
  | none => simp [h']

theorem merge_find_incoming_key_witness :
    (map.mk [("b", .integer 3)]).find "b" = some (.integer 3) ∧
    ((map.mk [("a", .integer 1)]).merge (map.mk [("b", .integer 3)])).find "b"
      = some (((map.mk [("a", .integer 1)]).find "b").getD (.integer 3)) :=
  ⟨rfl, merge_find_incoming_key ⟨[("a", .integer 1)]⟩ ⟨[("b", .integer 3)]⟩ "b" (.integer 3) rfl⟩

/-- C2: after `m1.merge(m2)` the keys of `m1` are exactly the keys of `m1`
together with the keys of `m2`, and a key of `m1` that is not a key of `m2`
still maps to the value it had before. -/
theorem merge_keys_union_and_frame (m1 m2 : map) :
    (∀ k, k ∈ (m1.merge m2).get_keys ↔ k ∈ m1.get_keys ∨ k ∈ m2.get_keys) ∧
    (∀ k v, m1.find k = some v → k ∉ m2.get_keys → (m1.merge m2).find k = some v) := by
  constructor
  · intro k
    show k ∈ (internal_map_t.insert_range m2.values_ m1.values_).map Prod.fst ↔
      k ∈ m1.values_.map Prod.fst ∨ k ∈ m2.values_.map Prod.fst
    rw [internal_map_t.mem_keys_iff, internal_map_t.mem_keys_iff, internal_map_t.mem_keys_iff,
      internal_map_t.find_insert_range]
    cases internal_map_t.find k m1.values_ <;> simp
  · intro k v h _
    have h' : internal_map_t.find k m1.values_ = some v := h
    show internal_map_t.find k (internal_map_t.insert_range m2.values_ m1.values_) = _
    rw [internal_map_t.find_insert_range, h']

theorem merge_keys_union_and_frame_witness :
    "b" ∈ ((map.mk [("a", .integer 1)]).merge (map.mk [("b", .integer 3)])).get_keys ∧
    ((map.mk [("a", .integer 1)]).merge (map.mk [("b", .integer 3)])).find "a"
      = some (.integer 1) :=
  ⟨((merge_keys_union_and_frame ⟨[("a", .integer 1)]⟩ ⟨[("b", .integer 3)]⟩).1 "b").2
      (Or.inr (by decide)),
    (merge_keys_union_and_frame ⟨[("a", .integer 1)]⟩ ⟨[("b", .integer 3)]⟩).2 "a" (.integer 1)
      rfl (by decide)⟩

/-! ## Keyed set, erase and get -/

/-- C3: after `m.set(k, v)` the lookup `m.get(k)` returns `v` (and `m.get<T>(k)`
returns `v` as `T`) without changing the map, whether or not `k` was a key
before, and every other key keeps the value it had. -/
theorem map_set_then_get (m : map) (k : String) (v : Value) :
    (m.set k v).get T.Value k = (.ok v, m.set k v) ∧
    (∀ t, (m.set k v).get t k = (v.as t, m.set k v)) ∧
    (∀ k0, k0 ≠ k → (m.set k v).find k0 = m.find k0) := by
  have hfind : internal_map_t.find k (m.set k v).values_ = some v := by
    show internal_map_t.find k
      (internal_map_t.assign k v (internal_map_t.subscript k m.values_).2) = some v
    rw [internal_map_t.find_assign, internal_map_t.find_subscript_self]
    simp
  have hget : ∀ t, (m.set k v).get t k = (v.as t, m.set k v) := by
    intro t
    simp [map.get, internal_map_t.subscript, hfind]
  refine ⟨?_, hget, ?_⟩
  · rw [hget]
    rfl
  · intro k0 hk
    show internal_map_t.find k0
      (internal_map_t.assign k v (internal_map_t.subscript k m.values_).2) =
        internal_map_t.find k0 m.values_
    rw [internal_map_t.find_assign, internal_map_t.find_subscript_other k k0 m.values_ hk]
    simp [hk]

theorem map_set_then_get_witness :
    "a" ≠ "b" ∧
    ((map.mk [("a", .integer 1), ("b", .integer 2)]).set "b" (.string "x")).find "a"
      = (map.mk [("a", .integer 1), ("b", .integer 2)]).find "a" :=
  ⟨by decide,
    (map_set_then_get ⟨[("a", .integer 1), ("b", .integer 2)]⟩ "b" (.string "x")).2.2 "a"
      (by decide)⟩

/-- C4: after `m.erase(k)` the call `m.get(k, fb)` returns `fb`, whether or not
`k` was a key before, and every key other than `k` keeps its value. -/
theorem erase_then_get_fallback (m : map) (t : T) (k : String) (fb : Value) :
    (m.erase k).get_fallback t k fb = .ok fb ∧
    (∀ k0, k0 ≠ k → (m.erase k).find k0 = m.find k0) := by
  constructor
  · have h : internal_map_t.find k (m.erase k).values_ = none := by
      show internal_map_t.find k (internal_map_t.erase k m.values_) = none
      rw [internal_map_t.find_erase]
      simp
    simp [map.get_fallback, h, normalize]
  · intro k0 hk
    show internal_map_t.find k0 (internal_map_t.erase k m.values_) = _
    rw [internal_map_t.find_erase]
    simp [hk, map.find]

theorem erase_then_get_fallback_witness :
    "a" ≠ "b" ∧
    ((map.mk [("a", .integer 1), ("b", .integer 2)]).erase "b").find "a"
      = (map.mk [("a", .integer 1), ("b", .integer 2)]).find "a" :=
  ⟨by decide,
    (erase_then_get_fallback ⟨[("a", .integer 1), ("b", .integer 2)]⟩ T.Value "b" .null).2 "a"
      (by decide)⟩

/-! ## Indexed set and get -/

/-- C5: for an index `i` below `a.size()`, `a.set(i, v)` goes through, after it
`a.get(i)` returns `v`, the size is the same, and every other index holds the
element it held before. -/
theorem array_set_then_get (a : array) (i : Nat) (v : Value) (h : i < a.size) :
    ∃ a1, a.set i v = .ok a1 ∧ a1.get T.Value i = .ok v ∧ a1.size = a.size ∧
      ∀ j, j ≠ i → a1.values_[j]? = a.values_[j]? := by
  have h' : i < a.values_.length := h
  refine ⟨⟨a.values_.set i v⟩, ?_, ?_, ?_, ?_⟩
  · simp [array.set, h']
  · simp [array.get, h', Value.as]
  · simp [array.size]
  · intro j hj
    have hij : ¬ i = j := fun e => hj e.symm
    simp [List.getElem?_set, hij]

theorem array_set_then_get_witness :
    1 < (array.mk [.integer 1, .integer 2, .integer 3]).size ∧
    ∃ a1, (array.mk [.integer 1, .integer 2, .integer 3]).set 1 (.string "x") = .ok a1 ∧
      a1.get T.Value 1 = .ok (.string "x") ∧
      a1.size = (array.mk [.integer 1, .integer 2, .integer 3]).size ∧
      ∀ j, j ≠ 1 → a1.values_[j]? = (array.mk [.integer 1, .integer 2, .integer 3]).values_[j]? :=
  ⟨by decide,
    array_set_then_get ⟨[.integer 1, .integer 2, .integer 3]⟩ 1 (.string "x") (by decide)⟩

/-! ## Access to a key the map does not hold -/

/-- C6, as stated, fails: on the empty map `get("a")` returns the null value (and
`get<integer>("a")` fails with `TypeMismatch`); neither fails with
`KeyNotFound`. -/
theorem absent_key_is_not_KeyNotFound :
    (map.mk []).find "a" = none ∧
    ((map.mk []).get T.Value "a").1 = .ok .null ∧
    ((map.mk []).get T.Value "a").1 ≠ .error failure.KeyNotFound ∧
    ((map.mk []).get T.integer "a").1 = .error failure.TypeMismatch := by
  refine ⟨rfl, rfl, ?_, rfl⟩
  intro h
  have h2 : (Except.ok Value.null : Except failure Value) = .error failure.KeyNotFound := h
  cases h2

/-- C6, amended: for a key `k` the map does not hold, `m.get<T>(k)` first binds
`k` to a default-constructed (null) value in `m` and then reads that value as
`T`: it returns the null value for `T = Value`, fails with `TypeMismatch` for a
`T` other than `Value` and the null type, and never fails with `KeyNotFound`. -/
theorem get_absent_key (m : map) (t : T) (k : String) (h : m.find k = none) :
    (m.get t k).1 = Value.null.as t ∧
    (m.get T.Value k).1 = .ok .null ∧
    (t ≠ T.Value → t ≠ T.null_t → (m.get t k).1 = .error failure.TypeMismatch) ∧
    (m.get t k).1 ≠ .error failure.KeyNotFound ∧
    (m.get t k).2.find k = some .null := by
  have h' : internal_map_t.find k m.values_ = none := h
  have hsub : internal_map_t.subscript k m.values_ =
      (Value.null, internal_map_t.place k Value.null m.values_) := by
    simp [internal_map_t.subscript, h']
  refine ⟨?_, ?_, ?_, ?_, ?_⟩
  · simp [map.get, hsub]
  · simp [map.get, hsub, Value.as]
  · intro h1 h2
    simp only [map.get, hsub]
    cases t <;> simp [Value.as] at h1 h2 ⊢
  · simp only [map.get, hsub]
    cases t <;> simp [Value.as]
  · show internal_map_t.find k (internal_map_t.subscript k m.values_).2 = some .null
    rw [hsub]
    exact internal_map_t.find_place_self k .null m.values_ h'

theorem get_absent_key_witness :
    (map.mk [("a", .integer 1)]).find "b" = none ∧
    ((map.mk [("a", .integer 1)]).get T.string "b").1 = Value.null.as T.string ∧
    ((map.mk [("a", .integer 1)]).get T.Value "b").1 = .ok .null ∧
    (T.string ≠ T.Value → T.string ≠ T.null_t →
      ((map.mk [("a", .integer 1)]).get T.string "b").1 = .error failure.TypeMismatch) ∧
    ((map.mk [("a", .integer 1)]).get T.string "b").1 ≠ .error failure.KeyNotFound ∧
    ((map.mk [("a", .integer 1)]).get T.string "b").2.find "b" = some .null :=
  ⟨rfl, get_absent_key ⟨[("a", .integer 1)]⟩ T.string "b" rfl⟩

/-- C7: for a key `k` the map does not hold, `m[k]` yields the null value and
leaves `m` with `k` bound to the null value, one entry more, and every other
entry as it was; for a key the map holds, `m[k]` yields the stored value and
leaves `m` as it was. -/
theorem subscript_insert_on_miss (m : map) (k : String) :
    (m.find k = none →
      (m.subscript k).1 = .ok .null ∧
      (m.subscript k).2.find k = some .null ∧
      (m.subscript k).2.size = m.size + 1 ∧
      (∀ k0, k0 ≠ k → (m.subscript k).2.find k0 = m.find k0) ∧
      (∃ front back, m.values_ = front ++ back ∧
        (m.subscript k).2.values_ = front ++ (k, Value.null) :: back)) ∧
    (∀ v, m.find k = some v → m.subscript k = (.ok v, m)) := by
  constructor
  · intro h
    have h' : internal_map_t.find k m.values_ = none := h
    have hsub : internal_map_t.subscript k m.values_ =
        (Value.null, internal_map_t.place k Value.null m.values_) := by
      simp [internal_map_t.subscript, h']
    refine ⟨?_, ?_, ?_, ?_, ?_⟩
    · simp [map.subscript, map.get, hsub, Value.as]
    · show internal_map_t.find k (internal_map_t.subscript k m.values_).2 = some .null
      rw [hsub]
      exact internal_map_t.find_place_self k .null m.values_ h'
    · show (internal_map_t.subscript k m.values_).2.length = m.values_.length + 1
      rw [hsub]
      exact internal_map_t.length_place k .null m.values_
    · intro k0 hk
      exact internal_map_t.find_subscript_other k k0 m.values_ hk
    · show ∃ front back, m.values_ = front ++ back ∧
        (internal_map_t.subscript k m.values_).2 = front ++ (k, Value.null) :: back
      rw [hsub]
      exact internal_map_t.place_eq_append k .null m.values_
  · intro v h
    have h' : internal_map_t.find k m.values_ = some v := h
    simp [map.subscript, map.get, internal_map_t.subscript, h', Value.as]

theorem subscript_insert_on_miss_witness :
    (map.mk [("a", .integer 1)]).find "b" = none ∧
    ((map.mk [("a", .integer 1)]).subscript "b").2.size = (map.mk [("a", .integer 1)]).size + 1 ∧
    (map.mk [("a", .integer 1)]).subscript "a" = (.ok (.integer 1), ⟨[("a", .integer 1)]⟩) :=
  ⟨rfl, ((subscript_insert_on_miss ⟨[("a", .integer 1)]⟩ "b").1 rfl).2.2.1,
    (subscript_insert_on_miss ⟨[("a", .integer 1)]⟩ "a").2 (.integer 1) rfl⟩

/-! ## Fallbacks for missing data -/

/-- C8: for an index at or beyond `a.size()`, `a.get(i, fb)` returns the
normalised `fb`, and for a key the map does not hold `m.get(k, fb)` returns
`fb`: neither call fails. -/
theorem get_fallback_covers_missing (t : T) (fb : Value) :
    (∀ (a : array) (i : Nat), i ≥ a.size →
      a.get_fallback t i fb = .ok (normalize fb) ∧ a.get_fallback t i fb = .ok fb) ∧
    (∀ (m : map) (k : String), m.find k = none → m.get_fallback t k fb = .ok fb) := by
  constructor
  · intro a i h
    have h' : i ≥ a.values_.length := h
    simp [array.get_fallback, h', normalize]
  · intro m k h
    have h' : internal_map_t.find k m.values_ = none := h
    simp [map.get_fallback, h', normalize]

theorem get_fallback_covers_missing_witness :
    3 ≥ (array.mk [.integer 1, .integer 2, .integer 3]).size ∧
    (array.mk [.integer 1, .integer 2, .integer 3]).get_fallback T.integer 3 (.integer 7)
      = .ok (.integer 7) ∧
    example_document.find "gems" = none ∧
    example_document.get_fallback T.string "gems" (.string "Default awesomeness")
      = .ok (.string "Default awesomeness") :=
  ⟨by decide,
    ((get_fallback_covers_missing T.integer (.integer 7)).1
      ⟨[.integer 1, .integer 2, .integer 3]⟩ 3 (by decide)).2,
    rfl,
    (get_fallback_covers_missing T.string (.string "Default awesomeness")).2
      example_document "gems" rfl⟩

/-! ## Dotted paths -/

theorem getElem?_append_length (pre : List String) (token : String) (rest : List String) :
    (pre ++ token :: rest)[pre.length]? = some token := by
  induction pre with
  | nil => simp
  | cons x xs ih => simpa using ih

theorem path_resolves_ne_nil {values_ : internal_map_t} {tokens : List String} {v : Value}
    (h : path_resolves values_ tokens v) : tokens ≠ [] := by
  cases h <;> simp

theorem path_breaks_ne_nil {values_ : internal_map_t} {tokens : List String}
    (h : path_breaks values_ tokens) : tokens ≠ [] := by
  cases h <;> simp

theorem path_meets_non_map_ne_nil {values_ : internal_map_t} {tokens : List String}
    (h : path_meets_non_map values_ tokens) : tokens ≠ [] := by
  cases h <;> simp

theorem split_ne_nil (delim source : List Char) : split delim source ≠ [] := by
  cases source with
  | nil => simp [split]
  | cons c cs =>
    by_cases hc : c ∈ delim
    · simp [split, hc]
    · cases h : split delim cs <;> simp [split, hc, h]

/-- A path always has a last token: `tokens.size() - 1` does not wrap. -/
theorem tokenize_ne_nil (source delim : String) : tokenize source delim ≠ [] := by
  simp [tokenize, split_ne_nil]

/-- The three ways a walk can end leave no path out. -/
theorem path_cases (tokens : List String) (htokens : tokens ≠ []) :
    ∀ values_ : internal_map_t,
      (∃ v, path_resolves values_ tokens v) ∨ path_breaks values_ tokens ∨
        path_meets_non_map values_ tokens := by
  induction tokens with
  | nil => exact absurd rfl htokens
  | cons token rest ih =>
    intro values_
    cases hfind : internal_map_t.find token values_ with
    | none => exact Or.inr (Or.inl (path_breaks.absent values_ token rest hfind))
    | some v =>
      cases rest with
      | nil => exact Or.inl ⟨v, path_resolves.final values_ token v hfind⟩
      | cons r rs =>
        by_cases hv : ∃ sub, v = Value.map sub
        · obtain ⟨sub, rfl⟩ := hv
          rcases ih (by simp) sub with ⟨w, hw⟩ | hb | hn
          · exact Or.inl ⟨w, path_resolves.step values_ sub token (r :: rs) w hfind hw⟩
          · exact Or.inr (Or.inl (path_breaks.step values_ sub token (r :: rs) hfind hb))
          · exact Or.inr (Or.inr (path_meets_non_map.step values_ sub token (r :: rs) hfind hn))
        · exact Or.inr (Or.inr (path_meets_non_map.here values_ token (r :: rs) v hfind
            (fun sub hsub => hv ⟨sub, hsub⟩) (by simp)))

/-- One turn of the loop of `get_for_path(path, fallback)` over a token that
resolves to a map. -/
theorem get_for_path_fallback_from_step (t : T) (fb : Value) (pre : List String)
    (token : String) (rest : List String) (path_size : Nat) (values_ sub : internal_map_t)
    (hrest : rest ≠ [])
    (hfind : internal_map_t.find token values_ = some (Value.map sub)) :
    map.get_for_path_fallback_from t (pre ++ token :: rest) path_size fb
        ((token :: rest).length - 1) pre.length values_ =
      map.get_for_path_fallback_from t ((pre ++ [token]) ++ rest) path_size fb
        (rest.length - 1) (pre ++ [token]).length sub := by
  obtain ⟨r, rs, rfl⟩ := List.exists_cons_of_ne_nil hrest
  have hn : (token :: r :: rs).length - 1 = ((r :: rs).length - 1) + 1 := by simp
  rw [hn, map.get_for_path_fallback_from, getElem?_append_length]
  simp [hfind, Value.as_map_t]

/-- The last lookup of `get_for_path(path, fallback)`. -/
theorem get_for_path_fallback_from_last (t : T) (fb : Value) (pre : List String)
    (token : String) (values_ : internal_map_t) :
    map.get_for_path_fallback_from t (pre ++ [token]) ((pre ++ [token]).length - 1) fb
        0 pre.length values_ =
      match internal_map_t.find token values_ with
      | none => .ok fb
      | some v => v.as t := by
  have hsize : (pre ++ [token]).length - 1 = pre.length := by simp
  rw [map.get_for_path_fallback_from, hsize, getElem?_append_length]

theorem get_for_path_fallback_from_resolves (t : T) (fb : Value)
    (values_ : internal_map_t) (rest : List String) (v : Value)
    (h : path_resolves values_ rest v) :
    ∀ pre : List String,
      map.get_for_path_fallback_from t (pre ++ rest) ((pre ++ rest).length - 1) fb
        (rest.length - 1) pre.length values_ = v.as t := by
  induction h with
  | final values_ token v hfind =>
    intro pre
    have h0 : [token].length - 1 = 0 := rfl
    rw [h0, get_for_path_fallback_from_last, hfind]
  | step values_ sub token rest v hfind hrest ih =>
    intro pre
    rw [get_for_path_fallback_from_step t fb pre token rest _ values_ sub
      (path_resolves_ne_nil hrest) hfind]
    have happ : pre ++ token :: rest = (pre ++ [token]) ++ rest := by simp
    rw [happ]
    exact ih (pre ++ [token])

theorem get_for_path_fallback_from_breaks (t : T) (fb : Value)
    (values_ : internal_map_t) (rest : List String)
    (h : path_breaks values_ rest) :
    ∀ pre : List String,
      map.get_for_path_fallback_from t (pre ++ rest) ((pre ++ rest).length - 1) fb
        (rest.length - 1) pre.length values_ = .ok fb := by
  induction h with
  | absent values_ token rest hfind =>
    intro pre
    cases rest with
    | nil =>
      have h0 : [token].length - 1 = 0 := rfl
      rw [h0, get_for_path_fallback_from_last, hfind]
    | cons r rs =>
      have hn : (token :: r :: rs).length - 1 = ((r :: rs).length - 1) + 1 := by simp
      rw [hn, map.get_for_path_fallback_from, getElem?_append_length]
      simp [hfind]
  | step values_ sub token rest hfind hrest ih =>
    intro pre
    rw [get_for_path_fallback_from_step t fb pre token rest _ values_ sub
      (path_breaks_ne_nil hrest) hfind]
    have happ : pre ++ token :: rest = (pre ++ [token]) ++ rest := by simp
    rw [happ]
    exact ih (pre ++ [token])

theorem get_for_path_fallback_from_meets_non_map (t : T) (fb : Value)
    (values_ : internal_map_t) (rest : List String)
    (h : path_meets_non_map values_ rest) :
    ∀ pre : List String,
      map.get_for_path_fallback_from t (pre ++ rest) ((pre ++ rest).length - 1) fb
        (rest.length - 1) pre.length values_ = .error failure.TypeMismatch := by
  induction h with
  | here values_ token rest v hfind hv hne =>
    intro pre
    obtain ⟨r, rs, rfl⟩ := List.exists_cons_of_ne_nil hne
    have hn : (token :: r :: rs).length - 1 = ((r :: rs).length - 1) + 1 := by simp
    rw [hn, map.get_for_path_fallback_from, getElem?_append_length]
    have hmap : v.as_map_t = .error failure.TypeMismatch := by
      cases v <;> simp [Value.as_map_t] at hv ⊢
    simp [hfind, hmap]
  | step values_ sub token rest hfind hrest ih =>
    intro pre
    rw [get_for_path_fallback_from_step t fb pre token rest _ values_ sub
      (path_meets_non_map_ne_nil hrest) hfind]
    have happ : pre ++ token :: rest = (pre ++ [token]) ++ rest := by simp
    rw [happ]
    exact ih (pre ++ [token])

/-- C9: when the walk along the tokens of `p` reaches the final token through
maps only, `m.get_for_path(p, fb)` returns the value stored there, read as `T`;
when the walk reaches an absent token, intermediate or final, through maps only,
it returns `fb`. -/
theorem get_for_path_fallback_over_maps (m : map) (t : T) (p : String) (fb : Value) :
    (∀ v, path_resolves m.values_ (tokenize p ".") v →
      m.get_for_path_fallback t p fb = v.as t) ∧
    (path_breaks m.values_ (tokenize p ".") →
      m.get_for_path_fallback t p fb = .ok fb) := by
  constructor
  · intro v h
    exact get_for_path_fallback_from_resolves t fb m.values_ (tokenize p ".") v h []
  · intro h
    exact get_for_path_fallback_from_breaks t fb m.values_ (tokenize p ".") h []

theorem get_for_path_fallback_over_maps_witness :
    example_document.get_for_path_fallback T.integer "person.inventory.coins" (.integer 0)
      = .ok (.integer 5) ∧
    example_document.get_for_path_fallback T.integer "person.inventory.gems" (.integer 0)
      = .ok (.integer 0) :=
  ⟨(get_for_path_fallback_over_maps example_document T.integer "person.inventory.coins"
      (.integer 0)).1 (.integer 5)
      (path_resolves.step _ _ "person" ["inventory", "coins"] _ rfl
        (path_resolves.step _ _ "inventory" ["coins"] _ rfl
          (path_resolves.final _ "coins" _ rfl))),
    (get_for_path_fallback_over_maps example_document T.integer "person.inventory.gems"
      (.integer 0)).2
      (path_breaks.step _ _ "person" ["inventory", "gems"] rfl
        (path_breaks.step _ _ "inventory" ["gems"] rfl
          (path_breaks.absent _ "gems" [] rfl)))⟩

/-- C10, as stated, fails: on the map holding 1 under "a", the path "a.b" has the
intermediate token "a" present with a value that is not a map, and
`get_for_path("a.b", 0)` fails with `TypeMismatch` instead of returning the
fallback 0. -/
theorem non_map_intermediate_is_not_covered :
    tokenize "a.b" "." = ["a", "b"] ∧
    (map.mk [("a", .integer 1)]).find "a" = some (.integer 1) ∧
    (map.mk [("a", .integer 1)]).get_for_path_fallback T.integer "a.b" (.integer 0)
      = .error failure.TypeMismatch ∧
    (map.mk [("a", .integer 1)]).get_for_path_fallback T.integer "a.b" (.integer 0)
      ≠ .ok (.integer 0) := by
  refine ⟨by decide, rfl, rfl, ?_⟩
  intro h
  have h2 : (Except.error failure.TypeMismatch : Except failure Value) = .ok (.integer 0) := h
  cases h2

/-- C10, amended: when the walk along the tokens of `p` reaches, through maps
only, an intermediate token that is present with a value that is not a map,
`m.get_for_path(p, fb)` fails with `TypeMismatch`; it does not return `fb`. -/
theorem get_for_path_fallback_non_map (m : map) (t : T) (p : String) (fb : Value)
    (h : path_meets_non_map m.values_ (tokenize p ".")) :
    m.get_for_path_fallback t p fb = .error failure.TypeMismatch :=
  get_for_path_fallback_from_meets_non_map t fb m.values_ (tokenize p ".") h []

theorem get_for_path_fallback_non_map_witness :
    path_meets_non_map example_document.values_ (tokenize "person.name.first" ".") ∧
    example_document.get_for_path_fallback T.string "person.name.first" (.string "none")
      = .error failure.TypeMismatch :=
  have h : path_meets_non_map example_document.values_ (tokenize "person.name.first" ".") :=
    path_meets_non_map.step _ _ "person" ["name", "first"] rfl
      (path_meets_non_map.here _ "name" ["first"] (.string "Bob") rfl
        (fun sub hsub => by cases hsub) (by simp))
  ⟨h, get_for_path_fallback_non_map example_document T.string "person.name.first"
    (.string "none") h⟩

/-! ## Fallbacks and wrong-typed data -/

theorem as_of_no_match (t : T) (v : Value) (hm : t.tag_matches v.get_type = false)
    (hc : t.numerically_coercible v.get_type = false) :
    v.as t = .error failure.TypeMismatch := by
  cases t <;> cases v <;>
    simp [Value.as, T.tag_matches, T.numerically_coercible, Value.get_type] at hm hc ⊢

/-- C11: for a key the map holds with a value whose tag neither matches `T` nor
can be coerced numerically to `T`, `m.get<T>(k, fb)` is the failing
`as<T>()` of that value, `TypeMismatch`, whatever the fallback; likewise
`a.get<T>(i, fb)` for an index in range that holds such a value. -/
theorem fallback_never_masks_type_error (t : T) (fb : Value) :
    (∀ (m : map) (k : String) (v : Value), m.find k = some v →
      t.tag_matches v.get_type = false → t.numerically_coercible v.get_type = false →
      m.get_fallback t k fb = v.as t ∧
      m.get_fallback t k fb = .error failure.TypeMismatch) ∧
    (∀ (a : array) (i : Nat) (v : Value), a.values_[i]? = some v →
      t.tag_matches v.get_type = false → t.numerically_coercible v.get_type = false →
      a.get_fallback t i fb = v.as t ∧
      a.get_fallback t i fb = .error failure.TypeMismatch) := by
  constructor
  · intro m k v hfind hm hc
    have hfind1 : internal_map_t.find k m.values_ = some v := hfind
    have hget : m.get_fallback t k fb = v.as t := by
      simp [map.get_fallback, hfind1]
    exact ⟨hget, by rw [hget]; exact as_of_no_match t v hm hc⟩
  · intro a i v hget hm hc
    have hlt : i < a.values_.length := by
      by_contra hge
      have hnone : a.values_[i]? = none := List.getElem?_eq_none (Nat.le_of_not_lt hge)
      rw [hnone] at hget
      cases hget
    have hres : a.get_fallback t i fb = v.as t := by
      have hnot : ¬ i ≥ a.values_.length := Nat.not_le_of_lt hlt
      simp only [array.get_fallback, hnot, if_false, hget]
    exact ⟨hres, by rw [hres]; exact as_of_no_match t v hm hc⟩

theorem fallback_never_masks_type_error_witness :
    example_document.get_fallback T.integer "str" (.integer 0)
      = .error failure.TypeMismatch ∧
    (array.mk [.integer 1, .string "two"]).get_fallback T.integer 1 (.integer 0)
      = .error failure.TypeMismatch :=
  ⟨((fallback_never_masks_type_error T.integer (.integer 0)).1 example_document "str"
      (.string "hi") rfl rfl rfl).2,
    ((fallback_never_masks_type_error T.integer (.integer 0)).2
      ⟨[.integer 1, .string "two"]⟩ 1 (.string "two") rfl rfl rfl).2⟩

/-! ## Strict indexed access beyond the size -/

/-- C12, as stated, fails: on the empty array neither `get(0)` nor `set(0, v)`
reports `IndexOutOfRange`; both are the unchecked element access
`values_[0]`. -/
theorem strict_access_is_unchecked :
    0 ≥ (array.mk []).size ∧
    (array.mk []).get T.Value 0 = .error failure.undefined_behaviour ∧
    (array.mk []).get T.Value 0 ≠ .error failure.IndexOutOfRange ∧
    (∃ e, (array.mk []).set 0 Value.null = .error e ∧ e ≠ failure.IndexOutOfRange) := by
  refine ⟨by decide, rfl, ?_, ⟨failure.undefined_behaviour, rfl, by decide⟩⟩
  intro h
  have h2 : (Except.error failure.undefined_behaviour : Except failure Value)
      = .error failure.IndexOutOfRange := h
  cases h2

/-- C12, amended: for an index at or beyond `a.size()`, `a.get<T>(i)` and
`a.set(i, v)` are an unchecked element access outside the array, which is
undefined; no `IndexOutOfRange` is reported and no array with the element
added comes back. -/
theorem strict_access_beyond_size (a : array) (t : T) (i : Nat) (v : Value)
    (h : i ≥ a.size) :
    a.get t i = .error failure.undefined_behaviour ∧
    a.set i v = .error failure.undefined_behaviour := by
  have h1 : a.values_.length ≤ i := h
  constructor
  · simp [array.get, List.getElem?_eq_none h1]
  · have hnot : ¬ i < a.values_.length := Nat.not_lt_of_le h1
    simp [array.set, hnot]

theorem strict_access_beyond_size_witness :
    5 ≥ (array.mk [.integer 1, .integer 2]).size ∧
    (array.mk [.integer 1, .integer 2]).get T.integer 5 = .error failure.undefined_behaviour ∧
    (array.mk [.integer 1, .integer 2]).set 5 (.integer 3)
      = .error failure.undefined_behaviour :=
  ⟨by decide,
    strict_access_beyond_size ⟨[.integer 1, .integer 2]⟩ T.integer 5 (.integer 3) (by decide)⟩

/-! ## Construction from a value -/

/-- C13: constructing an array from a value fails exactly when the tag of the
value is not the array tag, the failure is `ConstructionError`, and on success
the new array is the array stored in the value; the same holds for a map and
the map tag. -/
theorem construction_from_value (v : Value) :
    ((∃ e, array.from_value v = .error e) ↔ v.get_type ≠ type_tag.type_array) ∧
    (v.get_type ≠ type_tag.type_array →
      array.from_value v = .error failure.ConstructionError) ∧
    (∀ values_, v = Value.array values_ → array.from_value v = .ok ⟨values_⟩) ∧
    ((∃ e, map.from_value v = .error e) ↔ v.get_type ≠ type_tag.type_map) ∧
    (v.get_type ≠ type_tag.type_map →
      map.from_value v = .error failure.ConstructionError) ∧
    (∀ values_, v = Value.map values_ → map.from_value v = .ok ⟨values_⟩) := by
  refine ⟨?_, ?_, ?_, ?_, ?_, ?_⟩
  · cases v <;> simp [array.from_value, Value.get_type, Value.as_array_t]
  · cases v <;> simp [array.from_value, Value.get_type, Value.as_array_t]
  · intro values_ hv
    subst hv
    simp [array.from_value, Value.get_type, Value.as_array_t]
  · cases v <;> simp [map.from_value, Value.get_type, Value.as_map_t]
  · cases v <;> simp [map.from_value, Value.get_type, Value.as_map_t]
  · intro values_ hv
    subst hv
    simp [map.from_value, Value.get_type, Value.as_map_t]

theorem construction_from_value_witness :
    array.from_value (.integer 1) = .error failure.ConstructionError ∧
    array.from_value (.array [.integer 1]) = .ok ⟨[.integer 1]⟩ ∧
    map.from_value (.array [.integer 1]) = .error failure.ConstructionError ∧
    map.from_value (.map [("a", .integer 1)]) = .ok ⟨[("a", .integer 1)]⟩ :=
  ⟨(construction_from_value (.integer 1)).2.1 (by decide),
    (construction_from_value (.array [.integer 1])).2.2.1 [.integer 1] rfl,
    (construction_from_value (.array [.integer 1])).2.2.2.2.1 (by decide),
    (construction_from_value (.map [("a", .integer 1)])).2.2.2.2.2 [("a", .integer 1)] rfl⟩

/-! ## Reset -/

/-- C15: when the parser fails on the text, `reset` fails with the failure of
the parser and the array (the map) is what it was before the call; when the
parser returns a document, the array (the map) is that document afterwards. -/
theorem reset_is_atomic (s : String) :
    (∀ (parse : String → Except failure array) (a : array),
      (∀ e, parse s = .error e → a.reset parse s = (.error e, a)) ∧
      (∀ d, parse s = .ok d → a.reset parse s = (.ok (), d))) ∧
    (∀ (parse : String → Except failure map) (m : map),
      (∀ e, parse s = .error e → m.reset parse s = (.error e, m)) ∧
      (∀ d, parse s = .ok d → m.reset parse s = (.ok (), d))) := by
  constructor
  · intro parse a
    constructor
    · intro e h
      simp [array.reset, h]
    · intro d h
      simp [array.reset, h]
  · intro parse m
    constructor
    · intro e h
      simp [map.reset, h]
    · intro d h
      simp [map.reset, h]

theorem reset_is_atomic_witness :
    (array.mk [.integer 1]).reset example_parse_array "[1"
      = (.error failure.ParseError, ⟨[.integer 1]⟩) ∧
    (array.mk [.integer 1]).reset example_parse_array "[]" = (.ok (), ⟨[]⟩) ∧
    example_document.reset example_parse_map "[1"
      = (.error failure.ParseError, example_document) ∧
    example_document.reset example_parse_map "\x7b\x7d" = (.ok (), ⟨[]⟩) :=
  ⟨((reset_is_atomic "[1").1 example_parse_array ⟨[.integer 1]⟩).1 failure.ParseError rfl,
    ((reset_is_atomic "[]").1 example_parse_array ⟨[.integer 1]⟩).2 ⟨[]⟩ rfl,
    ((reset_is_atomic "[1").2 example_parse_map example_document).1 failure.ParseError rfl,
    ((reset_is_atomic "\x7b\x7d").2 example_parse_map example_document).2 ⟨[]⟩ rfl⟩

/-! ## Erasing from an array -/

theorem erase_amount_succ (a a1 : array) (i n : Nat) (h : i + (n + 1) ≤ a.values_.length)
    (h1 : a.erase i = .ok a1) :
    a.erase_amount i (n + 1) = a1.erase_amount i n := by
  have hi : i < a.values_.length := by omega
  have ha1 : a1 = ⟨a.values_.eraseIdx i⟩ := by
    simp [array.erase, hi] at h1
    exact h1.symm
  subst ha1
  have hlen : (a.values_.eraseIdx i).length = a.values_.length - 1 := List.length_eraseIdx_of_lt hi
  have hle : i + n ≤ (a.values_.eraseIdx i).length := by omega
  simp only [array.erase_amount, h, hle, if_true]
  have hsplit : a.values_.eraseIdx i = a.values_.take i ++ a.values_.drop (i + 1) :=
    List.eraseIdx_eq_take_drop_succ a.values_ i
  have htake : (a.values_.take i).length = i := by
    simp [List.length_take]; omega
  rw [hsplit]
  have h1 : List.take i (List.take i a.values_ ++ List.drop (i + 1) a.values_)
      = List.take i a.values_ := by
    rw [List.take_append_eq_append_take]
    simp [htake]
  have h2 : List.drop (i + n) (List.take i a.values_ ++ List.drop (i + 1) a.values_)
      = List.drop (i + (n + 1)) a.values_ := by
    rw [List.drop_append_eq_append_drop]
    have hz : List.drop (i + n) (List.take i a.values_) = [] := by
      apply List.drop_eq_nil_of_le
      omega
    rw [hz, htake]
    simp only [List.nil_append, List.drop_drop]
    congr 1
    omega
  rw [h1, h2]

theorem erase_amount_eq_erase_times (n : Nat) :
    ∀ (a : array) (i : Nat), i + n ≤ a.size →
      a.erase_amount i n = array.erase_times i n a ∧
      ∃ a2, a.erase_amount i n = .ok a2 ∧ a2.size + n = a.size := by
  induction n with
  | zero =>
    intro a i h
    have h0 : i ≤ a.values_.length := h
    have hz : a.erase_amount i 0 = .ok a := by
      simp [array.erase_amount, h0]
    exact ⟨by rw [hz]; rfl, a, hz, rfl⟩
  | succ n ih =>
    intro a i h
    have h0 : i + (n + 1) ≤ a.values_.length := h
    have hi : i < a.values_.length := by omega
    have he : a.erase i = .ok ⟨a.values_.eraseIdx i⟩ := by
      simp [array.erase, hi]
    have hlen : (a.values_.eraseIdx i).length = a.values_.length - 1 :=
      List.length_eraseIdx_of_lt hi
    have hle : i + n ≤ (array.mk (a.values_.eraseIdx i)).size := by
      show i + n ≤ (a.values_.eraseIdx i).length
      omega
    obtain ⟨heq, a2, hok, hsize⟩ := ih ⟨a.values_.eraseIdx i⟩ i hle
    have hstep := erase_amount_succ a ⟨a.values_.eraseIdx i⟩ i n h0 he
    refine ⟨?_, a2, by rw [hstep]; exact hok, ?_⟩
    · rw [hstep, heq]
      simp [array.erase_times, he]
    · have hs : a2.size + n = (a.values_.eraseIdx i).length := hsize
      show a2.size + (n + 1) = a.values_.length
      omega

/-- C17: for an index `i` below `a.size()`, `a.erase(i)` goes through and leaves
an array one element shorter, with the elements below `i` where they were and
every element from `i` on being the old element one position up; and for
`i + n` at most `a.size()`, `a.erase(i, n)` is the array `n` calls of
`a.erase(i)` give, `n` elements shorter. -/
theorem array_erase_shifts_down (a : array) (i : Nat) :
    (i < a.size →
      ∃ a1, a.erase i = .ok a1 ∧ a1.size + 1 = a.size ∧
        (∀ j, j < i → a1.values_[j]? = a.values_[j]?) ∧
        (∀ j, j ≥ i → a1.values_[j]? = a.values_[j + 1]?)) ∧
    (∀ n, i + n ≤ a.size →
      a.erase_amount i n = array.erase_times i n a ∧
      ∃ a2, a.erase_amount i n = .ok a2 ∧ a2.size + n = a.size) := by
  constructor
  · intro h
    have hi : i < a.values_.length := h
    refine ⟨⟨a.values_.eraseIdx i⟩, by simp [array.erase, hi], ?_, ?_, ?_⟩
    · show (a.values_.eraseIdx i).length + 1 = a.values_.length
      rw [List.length_eraseIdx_of_lt hi]
      omega
    · intro j hj
      simp [List.getElem?_eraseIdx, hj]
    · intro j hj
      have hnot : ¬ j < i := Nat.not_lt_of_le hj
      simp [List.getElem?_eraseIdx, hnot]
  · intro n h
    exact erase_amount_eq_erase_times n a i h

theorem array_erase_shifts_down_witness :
    (1 < (array.mk [.integer 1, .integer 2, .integer 3]).size ∧
      ∃ a1, (array.mk [.integer 1, .integer 2, .integer 3]).erase 1 = .ok a1 ∧
        a1.size + 1 = (array.mk [.integer 1, .integer 2, .integer 3]).size ∧
        (∀ j, j < 1 → a1.values_[j]?
          = (array.mk [.integer 1, .integer 2, .integer 3]).values_[j]?) ∧
        (∀ j, j ≥ 1 → a1.values_[j]?
          = (array.mk [.integer 1, .integer 2, .integer 3]).values_[j + 1]?)) ∧
    (1 + 2 ≤ (array.mk [.integer 1, .integer 2, .integer 3]).size ∧
      (array.mk [.integer 1, .integer 2, .integer 3]).erase_amount 1 2
        = array.erase_times 1 2 ⟨[.integer 1, .integer 2, .integer 3]⟩) :=
  ⟨⟨by decide,
      (array_erase_shifts_down ⟨[.integer 1, .integer 2, .integer 3]⟩ 1).1 (by decide)⟩,
    ⟨by decide,
      ((array_erase_shifts_down ⟨[.integer 1, .integer 2, .integer 3]⟩ 1).2 2 (by decide)).1⟩⟩

/-! ## Tokens of a path -/

theorem split_no_delim (delim : List Char) (source : List Char) :
    ∀ token ∈ split delim source, ∀ c ∈ delim, c ∉ token := by
  induction source with
  | nil =>
    intro token htoken c _
    simp [split] at htoken
    simp [htoken]
  | cons x xs ih =>
    intro token htoken c hc
    by_cases hx : x ∈ delim
    · simp only [split, hx, if_true, List.mem_cons] at htoken
      rcases htoken with h | h
      · simp [h]
      · exact ih token h c hc
    · cases hs : split delim xs with
      | nil => exact absurd hs (split_ne_nil delim xs)
      | cons t ts =>
        simp only [split, hx, if_false, hs, List.mem_cons] at htoken
        rcases htoken with h | h
        · subst h
          have ht := ih t (by simp [hs]) c hc
          intro hmem
          rcases List.mem_cons.mp hmem with h1 | h1
          · exact hx (h1 ▸ hc)
          · exact ht h1
        · exact ih token (by simp [hs, h]) c hc

theorem split_length (delim : List Char) (source : List Char) :
    (split delim source).length = source.countP (fun c => decide (c ∈ delim)) + 1 := by
  induction source with
  | nil => simp [split]
  | cons x xs ih =>
    by_cases hx : x ∈ delim
    · simp [split, hx, ih]
    · cases hs : split delim xs with
      | nil => exact absurd hs (split_ne_nil delim xs)
      | cons t ts =>
        rw [hs] at ih
        simp [split, hx, hs] at ih ⊢
        exact ih

theorem split_join (d : Char) (source : List Char) :
    ∃ t ts, split [d] source = t :: ts ∧
      t ++ (ts.map (fun token => d :: token)).flatten = source := by
  induction source with
  | nil => exact ⟨[], [], rfl, rfl⟩
  | cons x xs ih =>
    obtain ⟨t, ts, hs, hj⟩ := ih
    by_cases hx : x = d
    · refine ⟨[], t :: ts, by simp [split, hx, hs], ?_⟩
      simp [hx, hj]
    · refine ⟨x :: t, ts, by simp [split, hx, hs], ?_⟩
      simp [hj]

theorem intercalate_go_data (sep : String) (rest : List String) :
    ∀ acc : String, (String.intercalate.go acc sep rest).data =
      acc.data ++ (rest.map (fun token => sep.data ++ token.data)).flatten := by
  induction rest with
  | nil => intro acc; simp [String.intercalate.go]
  | cons a as ih =>
    intro acc
    simp [String.intercalate.go, ih, String.data_append]

/-- C16: `tokenize(s, ".")` is never empty, none of its tokens contains a '.', it
has one token more than `s` has '.' characters, and its tokens joined with "."
are `s`; so "a..b" gives "a", "", "b", the empty string gives one empty token, and
`tokens.size() - 1` is the index of the last token, without wrapping. -/
theorem tokenize_is_lexical_split (s : String) :
    tokenize s "." ≠ [] ∧
    (∀ token ∈ tokenize s ".", '.' ∉ token.data) ∧
    (tokenize s ".").length = s.data.count '.' + 1 ∧
    String.intercalate "." (tokenize s ".") = s ∧
    tokenize "a..b" "." = ["a", "", "b"] ∧
    tokenize "" "." = [""] ∧
    (tokenize s ".").length - 1 + 1 = (tokenize s ".").length := by
  have hne : tokenize s "." ≠ [] := tokenize_ne_nil s "."
  have hdelim : (".": String).data = ['.'] := rfl
  refine ⟨hne, ?_, ?_, ?_, by decide, by decide, ?_⟩
  · intro token htoken
    simp only [tokenize, List.mem_map] at htoken
    obtain ⟨chars, hchars, rfl⟩ := htoken
    exact split_no_delim _ _ chars hchars '.' (by simp [hdelim])
  · simp only [tokenize, List.length_map, split_length, hdelim]
    simp [List.count, List.countP_eq_length_filter]
    congr 1
  · obtain ⟨t, ts, hs, hj⟩ := split_join '.' s.data
    apply String.ext
    simp only [tokenize, hdelim, hs, List.map_cons, String.intercalate, intercalate_go_data]
    simp only [List.map_map]
    have hmap : (List.map ((fun token : String => ['.'] ++ token.data) ∘ String.mk) ts)
        = ts.map (fun token => '.' :: token) := by
      apply List.map_congr_left
      intro a _
      rfl
    rw [hmap]
    exact hj
  · have hpos : 0 < (tokenize s ".").length := List.length_pos.mpr hne
    omega

theorem tokenize_is_lexical_split_witness :
    "inventory" ∈ tokenize "person.inventory.coins" "." ∧ '.' ∉ ("inventory" : String).data :=
  ⟨by decide,
    (tokenize_is_lexical_split "person.inventory.coins").2.1 "inventory" (by decide)⟩

/-! ## Equality of values -/

mutual

theorem Value.beq_iff : ∀ (a b : Value), Value.beq a b = true ↔ a = b
  | .null, b => by cases b <;> simp [Value.beq]
  | .boolean x, b => by cases b <;> simp [Value.beq]
  | .integer x, b => by cases b <;> simp [Value.beq]
  | .floating x, b => by cases b <;> simp [Value.beq]
  | .string x, b => by cases b <;> simp [Value.beq]
  | .array xs, b => by cases b <;> simp [Value.beq, Value.beq_values_iff xs]
  | .map xs, b => by cases b <;> simp [Value.beq, Value.beq_entries_iff xs]

theorem Value.beq_values_iff : ∀ (xs ys : List Value), Value.beq_values xs ys = true ↔ xs = ys
  | [], ys => by cases ys <;> simp [Value.beq_values]
  | x :: xs, ys => by
    cases ys with
    | nil => simp [Value.beq_values]
    | cons y ys => simp [Value.beq_values, Value.beq_iff x y, Value.beq_values_iff xs ys]

theorem Value.beq_entries_iff :
    ∀ (xs ys : List (String × Value)), Value.beq_entries xs ys = true ↔ xs = ys
  | [], ys => by cases ys <;> simp [Value.beq_entries]
  | (k, x) :: xs, ys => by
    cases ys with
    | nil => simp [Value.beq_entries]
    | cons entry ys =>
      obtain ⟨l, y⟩ := entry
      simp [Value.beq_entries, Value.beq_iff x y, Value.beq_entries_iff xs ys, and_assoc]

end

theorem operator_eq_iff (lhs rhs : map) : map.operator_eq lhs rhs = true ↔ lhs = rhs := by
  cases lhs with
  | mk l =>
    cases rhs with
    | mk r => simp [map.operator_eq, Value.beq_entries_iff]

/-! ## The key order of the storage -/

namespace internal_map_t

theorem ordered_nil : ordered [] := List.Pairwise.nil

theorem ordered_cons (k : String) (v : Value) (rest : internal_map_t) :
    ordered ((k, v) :: rest) ↔ (∀ e ∈ rest, k.data < e.1.data) ∧ ordered rest := by
  unfold ordered
  exact List.pairwise_cons

theorem ordered_iff_keys (values_ : internal_map_t) :
    ordered values_ ↔ List.Pairwise (fun a b : String => a.data < b.data)
      (values_.map Prod.fst) := by
  unfold ordered
  rw [List.pairwise_map]

theorem find_none_of_lt (key : String) (values_ : internal_map_t)
    (h : ∀ e ∈ values_, key.data < e.1.data) : find key values_ = none := by
  induction values_ with
  | nil => rfl
  | cons entry rest ih =>
    obtain ⟨k, v⟩ := entry
    have hk : key.data < k.data := h (k, v) (by simp)
    have hne : ¬ k = key := by
      intro e
      rw [e] at hk
      exact lt_irrefl _ hk
    simp only [find, hne, if_false]
    exact ih (fun e he => h e (by simp [he]))

theorem mem_of_find (key : String) (v : Value) (values_ : internal_map_t)
    (h : find key values_ = some v) : (key, v) ∈ values_ := by
  induction values_ with
  | nil => simp [find] at h
  | cons entry rest ih =>
    obtain ⟨k, x⟩ := entry
    by_cases hk : k = key
    · simp only [find, hk, if_true, Option.some.injEq] at h
      simp [hk, h]
    · simp only [find, hk, if_false] at h
      simp [ih h]

theorem find_of_mem (key : String) (v : Value) (values_ : internal_map_t)
    (hord : ordered values_) (h : (key, v) ∈ values_) : find key values_ = some v := by
  induction values_ with
  | nil => simp at h
  | cons entry rest ih =>
    obtain ⟨k, x⟩ := entry
    obtain ⟨hhead, hrest⟩ := (ordered_cons k x rest).mp hord
    rcases List.mem_cons.mp h with h1 | h1
    · cases h1
      simp [find]
    · have hlt : k.data < key.data := hhead (key, v) h1
      have hne : ¬ k = key := by
        intro e
        rw [e] at hlt
        exact lt_irrefl _ hlt
      simp only [find, hne, if_false]
      exact ih hrest h1

/-- Two storages in key order that answer every `find` alike are the same
storage. -/
theorem ordered_ext (l1 : internal_map_t) :
    ∀ l2 : internal_map_t, ordered l1 → ordered l2 →
      (∀ k, find k l1 = find k l2) → l1 = l2 := by
  induction l1 with
  | nil =>
    intro l2 _ _ h
    cases l2 with
    | nil => rfl
    | cons entry rest =>
      obtain ⟨k, v⟩ := entry
      have hk := h k
      simp [find] at hk
  | cons entry1 rest1 ih =>
    intro l2 h1 h2 h
    obtain ⟨k1, v1⟩ := entry1
    cases l2 with
    | nil =>
      have hk := h k1
      simp [find] at hk
    | cons entry2 rest2 =>
      obtain ⟨k2, v2⟩ := entry2
      obtain ⟨hhead1, hrest1⟩ := (ordered_cons k1 v1 rest1).mp h1
      obtain ⟨hhead2, hrest2⟩ := (ordered_cons k2 v2 rest2).mp h2
      have hnone1 : find k1 rest1 = none := find_none_of_lt k1 rest1 hhead1
      have hnone2 : find k2 rest2 = none := find_none_of_lt k2 rest2 hhead2
      rcases lt_trichotomy k1.data k2.data with hlt | heq | hgt
      · exfalso
        have hk := h k1
        have hne : ¬ k2 = k1 := by
          intro e
          rw [e] at hlt
          exact lt_irrefl _ hlt
        have hn : find k1 rest2 = none :=
          find_none_of_lt k1 rest2 (fun e he => lt_trans hlt (hhead2 e he))
        simp [find, hne, hn] at hk
      · have hkeys : k1 = k2 := String.ext heq
        subst hkeys
        have hk := h k1
        simp only [find, if_true, Option.some.injEq] at hk
        subst hk
        have htail : rest1 = rest2 := by
          apply ih rest2 hrest1 hrest2
          intro k
          by_cases hkk : k1 = k
          · subst hkk
            rw [hnone1, hnone2]
          · have hk2 := h k
            simpa [find, hkk] using hk2
        rw [htail]
      · exfalso
        have hk := h k2
        have hne : ¬ k1 = k2 := by
          intro e
          rw [e] at hgt
          exact lt_irrefl _ hgt
        have hn : find k2 rest1 = none :=
          find_none_of_lt k2 rest1 (fun e he => lt_trans hgt (hhead1 e he))
        simp [find, hne, hn] at hk

theorem mem_place (key : String) (value : Value) (values_ : internal_map_t)
    (e : String × Value) : e ∈ place key value values_ ↔ e = (key, value) ∨ e ∈ values_ := by
  obtain ⟨front, back, h1, h2⟩ := place_eq_append key value values_
  rw [h2, h1]
  simp only [List.mem_append, List.mem_cons]
  tauto

theorem ordered_place (key : String) (value : Value) (values_ : internal_map_t)
    (hord : ordered values_) (h : find key values_ = none) :
    ordered (place key value values_) := by
  induction values_ with
  | nil => simp [place, ordered]
  | cons entry rest ih =>
    obtain ⟨k, v⟩ := entry
    obtain ⟨hhead, hrest⟩ := (ordered_cons k v rest).mp hord
    have hne : ¬ k = key := by
      intro e
      simp [find, e] at h
    have hfind : find key rest = none := by
      simpa [find, hne] using h
    by_cases hlt : key.data < k.data
    · simp only [place, hlt, if_true]
      rw [ordered_cons]
      refine ⟨?_, hord⟩
      intro e he
      rcases List.mem_cons.mp he with h1 | h1
      · rw [h1]
        exact hlt
      · exact lt_trans hlt (hhead e h1)
    · simp only [place, hlt, if_false]
      rw [ordered_cons]
      refine ⟨?_, ih hrest hfind⟩
      intro e he
      rcases (mem_place key value rest e).mp he with h1 | h1
      · rw [h1]
        rcases lt_trichotomy k.data key.data with h2 | h2 | h2
        · exact h2
        · exact absurd (String.ext h2) hne
        · exact absurd h2 hlt
      · exact hhead e h1

theorem keys_assign (key : String) (value : Value) (values_ : internal_map_t) :
    (assign key value values_).map Prod.fst = values_.map Prod.fst := by
  induction values_ with
  | nil => rfl
  | cons entry rest ih =>
    obtain ⟨k, v⟩ := entry
    by_cases hk : k = key
    · simp [assign, hk]
    · simp [assign, hk, ih]

theorem ordered_assign (key : String) (value : Value) (values_ : internal_map_t)
    (hord : ordered values_) : ordered (assign key value values_) := by
  rw [ordered_iff_keys, keys_assign, ← ordered_iff_keys]
  exact hord

theorem ordered_subscript (key : String) (values_ : internal_map_t)
    (hord : ordered values_) : ordered (subscript key values_).2 := by
  unfold subscript
  cases h : find key values_ with
  | some v => exact hord
  | none => exact ordered_place key Value.null values_ hord h

theorem ordered_erase (key : String) (values_ : internal_map_t)
    (hord : ordered values_) : ordered (erase key values_) := by
  unfold erase ordered
  exact List.Pairwise.sublist (List.filter_sublist _) hord

theorem ordered_insert (entry : String × Value) (values_ : internal_map_t)
    (hord : ordered values_) : ordered (insert entry values_) := by
  unfold insert
  cases h : find entry.1 values_ with
  | some v => exact hord
  | none => exact ordered_place entry.1 entry.2 values_ hord h

theorem ordered_insert_range (range : internal_map_t) :
    ∀ values_ : internal_map_t, ordered values_ → ordered (insert_range range values_) := by
  induction range with
  | nil => intro values_ h; exact h
  | cons entry rest ih =>
    intro values_ h
    exact ih (insert entry values_) (ordered_insert entry values_ h)

theorem assign_of_find (key : String) (v : Value) (values_ : internal_map_t)
    (h : find key values_ = some v) : assign key v values_ = values_ := by
  induction values_ with
  | nil => rfl
  | cons entry rest ih =>
    obtain ⟨k, x⟩ := entry
    by_cases hk : k = key
    · simp only [find, hk, if_true, Option.some.injEq] at h
      simp [assign, hk, h]
    · simp only [find, hk, if_false] at h
      simp [assign, hk, ih h]

end internal_map_t

/-- The map operations keep the key order of the storage: the empty map has it,
and `set`, `erase`, `merge`, `get` and `operator[]` hand it on. -/
theorem ordered_preserved (m : map) (hord : internal_map_t.ordered m.values_) :
    internal_map_t.ordered (map.mk []).values_ ∧
    (∀ k v, internal_map_t.ordered (m.set k v).values_) ∧
    (∀ k, internal_map_t.ordered (m.erase k).values_) ∧
    (∀ m2 : map, internal_map_t.ordered (m.merge m2).values_) ∧
    (∀ t k, internal_map_t.ordered (m.get t k).2.values_) ∧
    (∀ k, internal_map_t.ordered (m.subscript k).2.values_) := by
  refine ⟨internal_map_t.ordered_nil, ?_, ?_, ?_, ?_, ?_⟩
  · intro k v
    exact internal_map_t.ordered_assign k v _ (internal_map_t.ordered_subscript k _ hord)
  · intro k
    exact internal_map_t.ordered_erase k _ hord
  · intro m2
    exact internal_map_t.ordered_insert_range m2.values_ m.values_ hord
  · intro t k
    exact internal_map_t.ordered_subscript k _ hord
  · intro k
    exact internal_map_t.ordered_subscript k _ hord

theorem find_set (m : map) (k k0 : String) (v : Value) :
    (m.set k v).find k0 = if k0 = k then some v else m.find k0 := by
  show internal_map_t.find k0
    (internal_map_t.assign k v (internal_map_t.subscript k m.values_).2) = _
  rw [internal_map_t.find_assign]
  by_cases hk : k0 = k
  · subst hk
    simp [internal_map_t.find_subscript_self]
  · simp [hk, internal_map_t.find_subscript_other k k0 m.values_ hk, map.find]

theorem ordered_set (m : map) (k : String) (v : Value)
    (hord : internal_map_t.ordered m.values_) : internal_map_t.ordered (m.set k v).values_ :=
  internal_map_t.ordered_assign k v _ (internal_map_t.ordered_subscript k _ hord)

theorem get_values_eq (m : map) : m.get_values.values_ = m.values_.map Prod.snd := by
  have h : ∀ (l : internal_map_t) (acc : array),
      (l.foldl (fun arr it => arr.add it.2) acc).values_ = acc.values_ ++ l.map Prod.snd := by
    intro l
    induction l with
    | nil => intro acc; simp
    | cons entry rest ih =>
      intro acc
      simp only [List.foldl, List.map_cons]
      rw [ih]
      simp [array.add]
  simpa [map.get_values] using h m.values_ ⟨[]⟩

/-! ## Equality of maps -/

/-- C14: for maps whose storage is in key order (every map the operations
build), `m1 == m2` holds exactly when the two have the same keys and equal
values at every key; `m1 != m2` is the negation of `m1 == m2`; and setting two
entries with different keys in either order gives equal maps, as for "a": 1 and
"b": 2 set into the empty map. -/
theorem map_equality_is_extensional (m1 m2 : map)
    (h1 : internal_map_t.ordered m1.values_) (h2 : internal_map_t.ordered m2.values_) :
    (map.operator_eq m1 m2 = true ↔
      (∀ k, k ∈ m1.get_keys ↔ k ∈ m2.get_keys) ∧
      (∀ k v1 v2, m1.find k = some v1 → m2.find k = some v2 → Value.beq v1 v2 = true)) ∧
    map.operator_ne m1 m2 = !(map.operator_eq m1 m2) ∧
    (∀ k1 k2 v1 v2, k1 ≠ k2 →
      map.operator_eq ((m1.set k1 v1).set k2 v2) ((m1.set k2 v2).set k1 v1) = true) ∧
    map.operator_eq (((map.mk []).set "a" (.integer 1)).set "b" (.integer 2))
      (((map.mk []).set "b" (.integer 2)).set "a" (.integer 1)) = true := by
  refine ⟨?_, rfl, ?_, by decide⟩
  · rw [operator_eq_iff]
    constructor
    · intro h
      subst h
      refine ⟨fun k => Iff.rfl, ?_⟩
      intro k v1 v2 hv1 hv2
      rw [hv1] at hv2
      cases hv2
      exact (Value.beq_iff v1 v1).mpr rfl
    · rintro ⟨hkeys, hvals⟩
      have hfind : ∀ k, internal_map_t.find k m1.values_ = internal_map_t.find k m2.values_ := by
        intro k
        have hk := hkeys k
        simp only [map.get_keys, internal_map_t.mem_keys_iff] at hk
        cases hf1 : internal_map_t.find k m1.values_ with
        | none =>
          cases hf2 : internal_map_t.find k m2.values_ with
          | none => rfl
          | some v2 =>
            exfalso
            rw [hf1, hf2] at hk
            exact (hk.mpr (by simp)) rfl
        | some v1 =>
          cases hf2 : internal_map_t.find k m2.values_ with
          | none =>
            exfalso
            rw [hf1, hf2] at hk
            exact (hk.mp (by simp)) rfl
          | some v2 =>
            have hb := hvals k v1 v2 hf1 hf2
            rw [(Value.beq_iff v1 v2).mp hb]
      cases m1 with
      | mk l1 =>
        cases m2 with
        | mk l2 =>
          have hl : l1 = l2 := internal_map_t.ordered_ext l1 l2 h1 h2 hfind
          rw [hl]
  · intro k1 k2 v1 v2 hne
    rw [operator_eq_iff]
    have ho1 := ordered_set (m1.set k1 v1) k2 v2 (ordered_set m1 k1 v1 h1)
    have ho2 := ordered_set (m1.set k2 v2) k1 v1 (ordered_set m1 k2 v2 h1)
    have hfind : ∀ k, internal_map_t.find k ((m1.set k1 v1).set k2 v2).values_
        = internal_map_t.find k ((m1.set k2 v2).set k1 v1).values_ := by
      intro k
      have e1 := find_set (m1.set k1 v1) k2 k v2
      have e2 := find_set m1 k1 k v1
      have e3 := find_set (m1.set k2 v2) k1 k v1
      have e4 := find_set m1 k2 k v2
      simp only [map.find] at e1 e2 e3 e4
      rw [e1, e2, e3, e4]
      by_cases hk1 : k = k1
      · have hk2 : ¬ k = k2 := fun e => hne (hk1.symm.trans e)
        simp [hk1, hk2, hne]
      · simp [hk1]
    have hl := internal_map_t.ordered_ext _ _ ho1 ho2 hfind
    cases hm : (m1.set k1 v1).set k2 v2 with
    | mk l1 =>
      cases hm2 : (m1.set k2 v2).set k1 v1 with
      | mk l2 =>
        rw [hm, hm2] at hl
        simp only at hl
        rw [hl]

theorem map_equality_is_extensional_witness :
    internal_map_t.ordered example_document.values_ ∧
    internal_map_t.ordered (example_document.set "str" (.string "ho")).values_ ∧
    map.operator_ne example_document (example_document.set "str" (.string "ho"))
      = !(map.operator_eq example_document (example_document.set "str" (.string "ho"))) ∧
    map.operator_eq ((example_document.set "x" .null).set "y" (.boolean true))
      ((example_document.set "y" (.boolean true)).set "x" .null) = true :=
  have h1 : internal_map_t.ordered example_document.values_ := by
    simp [internal_map_t.ordered, example_document]
    decide
  have h2 : internal_map_t.ordered (example_document.set "str" (.string "ho")).values_ :=
    ordered_set example_document "str" (.string "ho") h1
  ⟨h1, h2, (map_equality_is_extensional example_document _ h1 h2).2.1,
    (map_equality_is_extensional example_document _ h1 h2).2.2.1 "x" "y" .null (.boolean true)
      (by decide)⟩

/-! ## Keys and values -/

/-- C18: for a map whose storage is in key order (every map the operations
build), `get_keys()` and `get_values()` both have `m.size()` elements,
`get_keys()` has no duplicates and holds exactly the keys of `m`, each once,
and the value at a position of `get_values()` is the value `m` stores under the
key at that position of `get_keys()`. -/
theorem get_keys_get_values_aligned (m : map) (hord : internal_map_t.ordered m.values_) :
    m.get_keys.length = m.size ∧
    m.get_values.size = m.size ∧
    m.get_keys.Nodup ∧
    (∀ k, m.find k ≠ none ↔ m.get_keys.count k = 1) ∧
    (∀ (i : Nat) (k : String), m.get_keys[i]? = some k →
      ∃ v, m.get_values.values_[i]? = some v ∧ m.find k = some v) := by
  have hnodup : m.get_keys.Nodup := by
    have hp := (internal_map_t.ordered_iff_keys m.values_).mp hord
    unfold List.Nodup
    refine List.Pairwise.imp ?_ hp
    intro a b hab e
    rw [e] at hab
    exact lt_irrefl _ hab
  refine ⟨by simp [map.get_keys, map.size], ?_, hnodup, ?_, ?_⟩
  · show m.get_values.values_.length = m.values_.length
    rw [get_values_eq]
    simp
  · intro k
    rw [show m.find k = internal_map_t.find k m.values_ from rfl,
      ← internal_map_t.mem_keys_iff]
    constructor
    · intro hmem
      exact List.count_eq_one_of_mem hnodup hmem
    · intro hc
      apply List.count_pos_iff.mp
      show 0 < List.count k m.get_keys
      rw [hc]
      exact Nat.one_pos
  · intro i k hk
    rw [get_values_eq]
    simp only [map.get_keys, List.getElem?_map] at hk ⊢
    cases he : m.values_[i]? with
    | none => simp [he] at hk
    | some entry =>
      obtain ⟨k0, v0⟩ := entry
      simp only [he, Option.map_some', Option.some.injEq] at hk
      subst hk
      refine ⟨v0, by simp, ?_⟩
      exact internal_map_t.find_of_mem k0 v0 m.values_ hord (List.getElem?_mem he)

theorem get_keys_get_values_aligned_witness :
    internal_map_t.ordered example_document.values_ ∧
    example_document.get_keys = ["arr", "person", "str"] ∧
    example_document.get_keys.length = example_document.size ∧
    example_document.get_values.size = example_document.size ∧
    example_document.get_keys.Nodup ∧
    (∃ v, example_document.get_values.values_[2]? = some v ∧
      example_document.find "str" = some v) :=
  have h1 : internal_map_t.ordered example_document.values_ := by
    simp [internal_map_t.ordered, example_document]
    decide
  ⟨h1, rfl, (get_keys_get_values_aligned example_document h1).1,
    (get_keys_get_values_aligned example_document h1).2.1,
    (get_keys_get_values_aligned example_document h1).2.2.1,
    (get_keys_get_values_aligned example_document h1).2.2.2.2 2 "str" rfl⟩

/-! ## What a lookup leaves behind -/

theorem get_for_path_fallback_state_from_eq (t : T) (tokens : List String) (path_size : Nat)
    (fb : Value) :
    ∀ (n i : Nat) (sub_map : internal_map_t),
      map.get_for_path_fallback_state_from t tokens path_size fb n i sub_map =
        (map.get_for_path_fallback_from t tokens path_size fb n i sub_map, sub_map) := by
  intro n
  induction n with
  | zero =>
    intro i sub_map
    simp only [map.get_for_path_fallback_state_from, map.get_for_path_fallback_from]
    cases tokens[path_size]? with
    | none => rfl
    | some token =>
      dsimp only
      cases internal_map_t.find token sub_map <;> rfl
  | succ n ih =>
    intro i sub_map
    simp only [map.get_for_path_fallback_state_from, map.get_for_path_fallback_from]
    cases tokens[i]? with
    | none => rfl
    | some token =>
      dsimp only
      cases hfind : internal_map_t.find token sub_map with
      | none => rfl
      | some v =>
        dsimp only
        cases v with
        | map next =>
          simp only [Value.as_map_t, ih]
          rw [internal_map_t.assign_of_find token (Value.map next) sub_map hfind]
        | null => rfl
        | boolean b => rfl
        | integer z => rfl
        | floating f => rfl
        | string s => rfl
        | array xs => rfl

/-- C19: `m.get(k, fb)` and `m.get_for_path(p, fb)` return what they return and
leave `m` as it was before the call, at every level of nesting, whether the
stored value or the fallback comes back. -/
theorem fallback_accessors_are_pure_reads (m : map) (t : T) (k p : String) (fb : Value) :
    m.get_fallback_state t k fb = (m.get_fallback t k fb, m) ∧
    m.get_for_path_fallback_state t p fb = (m.get_for_path_fallback t p fb, m) ∧
    map.operator_eq (m.get_fallback_state t k fb).2 m = true ∧
    map.operator_eq (m.get_for_path_fallback_state t p fb).2 m = true := by
  have h1 : m.get_fallback_state t k fb = (m.get_fallback t k fb, m) := by
    simp only [map.get_fallback_state, map.get_fallback]
    cases internal_map_t.find k m.values_ <;> rfl
  have h2 : m.get_for_path_fallback_state t p fb = (m.get_for_path_fallback t p fb, m) := by
    simp only [map.get_for_path_fallback_state, map.get_for_path_fallback,
      get_for_path_fallback_state_from_eq]
  refine ⟨h1, h2, ?_, ?_⟩
  · rw [h1]
    exact (operator_eq_iff m m).mpr rfl
  · rw [h2]
    exact (operator_eq_iff m m).mpr rfl

/-- C20: for a path of at least two tokens whose first token is not a key of
`m`, `m.get_for_path(p)` yields no value (it fails with `TypeMismatch`) and
leaves `m` with the first token bound to a default-constructed (null) value:
one entry more, and a map that is not equal to the map before the call. -/
theorem strict_get_for_path_inserts (m : map) (t : T) (p : String)
    (t0 t1 : String) (rest : List String)
    (htokens : tokenize p "." = t0 :: t1 :: rest) (habsent : m.find t0 = none) :
    (m.get_for_path t p).1 = .error failure.TypeMismatch ∧
    (m.get_for_path t p).2.find t0 = some Value.null ∧
    (m.get_for_path t p).2.size = m.size + 1 ∧
    (m.get_for_path t p).2 ≠ m ∧
    map.operator_eq (m.get_for_path t p).2 m = false := by
  have hfind : internal_map_t.find t0 m.values_ = none := habsent
  have hsub : internal_map_t.subscript t0 m.values_ =
      (Value.null, internal_map_t.place t0 Value.null m.values_) := by
    simp [internal_map_t.subscript, hfind]
  have hlen : (t0 :: t1 :: rest).length - 1 = rest.length + 1 := by simp
  have hrun : m.get_for_path t p =
      (.error failure.TypeMismatch, ⟨internal_map_t.place t0 Value.null m.values_⟩) := by
    simp only [map.get_for_path, htokens, hlen, map.get_for_path_from]
    simp [hsub, Value.as_map_t]
  have hsize : (m.get_for_path t p).2.size = m.size + 1 := by
    rw [hrun]
    exact internal_map_t.length_place t0 Value.null m.values_
  have hne : (m.get_for_path t p).2 ≠ m := by
    intro e
    rw [e] at hsize
    omega
  refine ⟨by rw [hrun], ?_, hsize, hne, ?_⟩
  · rw [hrun]
    exact internal_map_t.find_place_self t0 Value.null m.values_ hfind
  · cases hb : map.operator_eq (m.get_for_path t p).2 m with
    | false => rfl
    | true => exact absurd ((operator_eq_iff _ _).mp hb) hne

theorem strict_get_for_path_inserts_witness :
    tokenize "pet.name" "." = ["pet", "name"] ∧
    example_document.find "pet" = none ∧
    (example_document.get_for_path T.string "pet.name").1 = .error failure.TypeMismatch ∧
    (example_document.get_for_path T.string "pet.name").2.find "pet" = some Value.null ∧
    (example_document.get_for_path T.string "pet.name").2.size = example_document.size + 1 ∧
    (example_document.get_for_path T.string "pet.name").2 ≠ example_document ∧
    map.operator_eq (example_document.get_for_path T.string "pet.name").2 example_document
      = false :=
  ⟨by decide, rfl,
    strict_get_for_path_inserts example_document T.string "pet.name" "pet" "name" []
      (by decide) rfl⟩

end jeayeson
